import Mathlib

/-!
# Verification of `busd` (a simple D-Bus broker) against its specification

This file gives a shallow embedding of the `busd` binary's entry point
(`src/bin/busd.rs`) and of the wire-codec contract described in the
specification, and proves the specification's claims about them.

The CLI glue (`Busd` namespace) is modelled directly from the source of
`src/bin/busd.rs`: command-line arguments become a structure, the fallible
external calls (`Config::read_file`, `Bus::for_address`, the readiness-fd
write, signal registration, the `select!` outcome, `Bus::cleanup`) become an
environment of oracles, and `main` becomes a function from arguments and
environment to the trace of externally visible events plus the returned
`Result`.
-/

namespace Busd

/-- The parsed configuration file.  Only the `<listen>` element matters to
`main`: `config.listen.as_ref().map(ToString::to_string)` in the source. -/
structure Config where
  listen : Option String
deriving Repr, DecidableEq

/-- The command-line arguments of `busd`, from `struct Args` in
`src/bin/busd.rs` (clap derive).  `config` holds the `--config` path. -/
structure Args where
  address : Option String
  command : Option String
  config : Option String
  print_address : Bool
  ready_fd : Option Int
  session : Bool
  system : Bool
deriving Repr, DecidableEq

/-- Configuration-file path selection from `main`:
`if args.system { system.conf } else if let Some(p) = args.config { p }
else { session.conf }`. -/
def configPath (args : Args) : String :=
  if args.system then "/usr/share/dbus-1/system.conf"
  else
    match args.config with
    | some p => p
    | none => "/usr/share/dbus-1/session.conf"

/-- Listen-address resolution from `main`:
`if let Some(address) = args.address { Some(address) } else
{ config.listen.as_ref().map(ToString::to_string) }`. -/
def resolvedAddress (args : Args) (config : Config) : Option String :=
  match args.address with
  | some a => some a
  | none => config.listen

/-- The bus object as seen by `main`: only its address string is observed. -/
structure Bus where
  address : String
deriving Repr, DecidableEq

/-- Result of a completed async branch (`bus.run()` or the command future). -/
inductive RunResult where
  | ok
  | error (msg : String)
deriving Repr, DecidableEq

/-- Which branch of the `select!` in `main` completed first. -/
inductive SelectOutcome where
  | sigint
  | busRun (res : RunResult)
  | command (res : RunResult)
deriving Repr, DecidableEq

/-- The behaviour of the `run_command` future: with no command it awaits
`std::future::pending()` forever; with a command it spawns
`sh -c <command>` with `DBUS_SESSION_BUS_ADDRESS` set and waits for it. -/
inductive CommandFuture where
  | pending
  | runs (prog : String) (progArgs : List String) (envKey envVal : String)
deriving Repr, DecidableEq

/-- Model of `run_command(command_opt, bus_address)` from `src/bin/busd.rs`:
`let Some(command) = command_opt else { std::future::pending().await };`
then `process::Command::new("sh").arg("-c").arg(command)
.env("DBUS_SESSION_BUS_ADDRESS", bus_address).spawn()`. -/
def run_command (command_opt : Option String) (bus_address : String) : CommandFuture :=
  match command_opt with
  | none => .pending
  | some command => .runs "sh" ["-c", command] "DBUS_SESSION_BUS_ADDRESS" bus_address

/-- Whether a command future can ever resolve: `pending` never does. -/
def canResolve : CommandFuture → Bool
  | .pending => false
  | .runs _ _ _ _ => true

/-- Which `select!` outcomes are possible given the command future's
behaviour: the SIGINT and `bus.run()` branches are driven by the outside
world, while the command branch can only complete if its future resolves. -/
def selectPossible (cf : CommandFuture) : SelectOutcome → Bool
  | .sigint => true
  | .busRun _ => true
  | .command _ => canResolve cf

/-- Externally visible events of one run of `main`, in program order. -/
inductive Event where
  | readConfigFile (path : String)
  | forAddress (addr : Option String)
  | readyWrite (fd : Int) (bytes : List Nat)
  | readyClose (fd : Int)
  | printAddress (addr : String)
  | spawnChild (prog : String) (progArgs : List String) (envKey envVal : String)
  | selectDone (o : SelectOutcome)
  | cleanup
  | logError (msg : String)
deriving Repr, DecidableEq

/-- The outside world's answers to `main`'s fallible external calls. -/
structure Env where
  configResult : Except String Config
  busResult : Except String Bus
  readyWriteOk : Bool
  signalOk : Bool
  selectOutcome : SelectOutcome
  cleanupResult : Except String Unit

/-- The bytes `b"READY=1\n"` written to the readiness file descriptor. -/
def readyBytes : List Nat := [82, 69, 65, 68, 89, 61, 49, 10]

/-- `if let Err(e) = bus.cleanup().await { error!("Failed to clean up: {}", e); }` —
a cleanup failure is logged and otherwise ignored. -/
def cleanupLog : Except String Unit → List Event
  | .ok _ => []
  | .error e => [Event.logError ("Failed to clean up: " ++ e)]

/-- Model of `main` from `src/bin/busd.rs`: returns the trace of external
events together with `main`'s `Result`.  Entering `select!` polls every
branch once, so a present command is spawned at that point; the branch that
completes is `env.selectOutcome`.  A failed readiness write still closes the
descriptor (the `File` is dropped) before `?` propagates the error. -/
def mainRun (args : Args) (env : Env) : List Event × Except String Unit :=
  let t0 := [Event.readConfigFile (configPath args)]
  match env.configResult with
  | .error e => (t0, .error e)
  | .ok config =>
    let addr := resolvedAddress args config
    let t1 := t0 ++ [Event.forAddress addr]
    match env.busResult with
    | .error e => (t1, .error e)
    | .ok bus =>
      let readyEvents := match args.ready_fd with
        | some fd => [Event.readyWrite fd readyBytes, Event.readyClose fd]
        | none => []
      let t2 := t1 ++ readyEvents
      if args.ready_fd.isSome && !env.readyWriteOk then
        (t2, .error "ready-fd write failed")
      else
        let t3 := t2 ++ (if args.print_address then [Event.printAddress bus.address] else [])
        if !env.signalOk then
          (t3, .error "signal registration failed")
        else
          let spawnEvents := match run_command args.command bus.address with
            | .pending => []
            | .runs p a k v => [Event.spawnChild p a k v]
          let t4 := t3 ++ spawnEvents ++ [Event.selectDone env.selectOutcome, Event.cleanup]
            ++ cleanupLog env.cleanupResult
          (t4, .ok ())

end Busd

namespace Wire

/-- Modelled from the spec: the WireCodec's type-signature alphabet (§4.1) —
"a type-signature string using one-character type codes (byte, boolean,
integers of width 16/32/64 signed/unsigned, double, string, object-path,
signature, array, struct, dict-entry, variant, unix-fd)".  The codec source
is not under `src/`, so the component is modelled from the spec's words. -/
inductive DBusType where
  | byte
  | boolean
  | int16
  | uint16
  | int32
  | uint32
  | int64
  | uint64
  | double
  | string
  | objectPath
  | signature
  | unixFd
  | array (elem : DBusType)
  | struct (fields : List DBusType)
  | dictEntry (key value : DBusType)
  | variant

/-- Modelled from the spec: natural alignment of each type — "each aligned
to the natural alignment of its type (1/2/4/8 bytes, struct/array/variant
content is 8-byte aligned)"; arrays align to their 4-byte length prefix,
struct and dict-entry contents to 8. -/
def alignOf : DBusType → Nat
  | .byte => 1
  | .boolean => 4
  | .int16 => 2
  | .uint16 => 2
  | .int32 => 4
  | .uint32 => 4
  | .int64 => 8
  | .uint64 => 8
  | .double => 8
  | .string => 4
  | .objectPath => 4
  | .signature => 1
  | .unixFd => 4
  | .array _ => 4
  | .struct _ => 8
  | .dictEntry _ _ => 8
  | .variant => 1

mutual

/-- Modelled from the spec: the one-character type codes, as ASCII bytes
(the D-Bus alphabet: y b n q i u x t d s o g h a, parens, braces, v). -/
def sigOf : DBusType → List Nat
  | .byte => [121]
  | .boolean => [98]
  | .int16 => [110]
  | .uint16 => [113]
  | .int32 => [105]
  | .uint32 => [117]
  | .int64 => [120]
  | .uint64 => [116]
  | .double => [100]
  | .string => [115]
  | .objectPath => [111]
  | .signature => [103]
  | .unixFd => [104]
  | .array t => 97 :: sigOf t
  | .struct ts => 40 :: (sigOfList ts ++ [41])
  | .dictEntry k v => 123 :: (sigOf k ++ sigOf v ++ [125])
  | .variant => [118]

def sigOfList : List DBusType → List Nat
  | [] => []
  | t :: ts => sigOf t ++ sigOfList ts

end

mutual

/-- Container nesting depth of a type (scalars 0, each container level 1). -/
def depthOf : DBusType → Nat
  | .array t => depthOf t + 1
  | .struct ts => depthList ts + 1
  | .dictEntry k v => max (depthOf k) (depthOf v) + 1
  | _ => 0

def depthList : List DBusType → Nat
  | [] => 0
  | t :: ts => max (depthOf t) (depthList ts)

end

/-- Modelled from the spec: "Decoding of nested container types is bounded
by a fixed maximum nesting depth (commonly 32)". -/
def maxDepth : Nat := 32

mutual

/-- Structures must have at least one field (an empty struct signature `()`
is rejected, so no value ever occupies zero bytes). -/
def structsNonempty : DBusType → Bool
  | .array t => structsNonempty t
  | .struct ts => !ts.isEmpty && structsNonemptyList ts
  | .dictEntry k v => structsNonempty k && structsNonempty v
  | _ => true

def structsNonemptyList : List DBusType → Bool
  | [] => true
  | t :: ts => structsNonempty t && structsNonemptyList ts

end

/-- A type acceptable to the decoder: within the depth bound, no empty
structs, and with a signature short enough for a 1-byte length prefix. -/
def typeOK (t : DBusType) : Bool :=
  decide (depthOf t ≤ maxDepth) && structsNonempty t && decide ((sigOf t).length < 256)

mutual

/-- Parse one complete type off a signature byte string; `depth` bounds
container nesting, `fuel` bounds recursion.  Returns the type and the
remaining bytes. -/
def parseSigType (fuel : Nat) (depth : Nat) (bs : List Nat) : Option (DBusType × List Nat) :=
  match fuel with
  | 0 => none
  | fuel + 1 =>
    match bs with
    | [] => none
    | c :: rest =>
      if c = 121 then some (.byte, rest)
      else if c = 98 then some (.boolean, rest)
      else if c = 110 then some (.int16, rest)
      else if c = 113 then some (.uint16, rest)
      else if c = 105 then some (.int32, rest)
      else if c = 117 then some (.uint32, rest)
      else if c = 120 then some (.int64, rest)
      else if c = 116 then some (.uint64, rest)
      else if c = 100 then some (.double, rest)
      else if c = 115 then some (.string, rest)
      else if c = 111 then some (.objectPath, rest)
      else if c = 103 then some (.signature, rest)
      else if c = 104 then some (.unixFd, rest)
      else if c = 118 then some (.variant, rest)
      else if c = 97 then
        match depth with
        | 0 => none
        | depth + 1 =>
          match parseSigType fuel depth rest with
          | some (t, r) => some (.array t, r)
          | none => none
      else if c = 40 then
        match depth with
        | 0 => none
        | depth + 1 =>
          match parseSigFields fuel depth rest with
          | some (ts, r) => if ts.isEmpty then none else some (.struct ts, r)
          | none => none
      else if c = 123 then
        match depth with
        | 0 => none
        | depth + 1 =>
          match parseSigType fuel depth rest with
          | some (k, r) =>
            match parseSigType fuel depth r with
            | some (v, r2) =>
              match r2 with
              | 125 :: r3 => some (.dictEntry k v, r3)
              | _ => none
            | none => none
          | none => none
      else none

def parseSigFields (fuel : Nat) (depth : Nat) (bs : List Nat) : Option (List DBusType × List Nat) :=
  match fuel with
  | 0 => none
  | fuel + 1 =>
    match bs with
    | [] => none
    | c :: rest =>
      if c = 41 then some ([], rest)
      else
        match parseSigType fuel depth (c :: rest) with
        | some (t, r) =>
          match parseSigFields fuel depth r with
          | some (ts, r2) => some (t :: ts, r2)
          | none => none
        | none => none

end

/-- Parse a whole signature: a sequence of complete types consuming every
byte. -/
def parseSigAll (fuel : Nat) (bs : List Nat) : Option (List DBusType) :=
  match fuel with
  | 0 => none
  | fuel + 1 =>
    match bs with
    | [] => some []
    | c :: rest =>
      match parseSigType (bs.length + 1) maxDepth (c :: rest) with
      | some (t, r) =>
        match parseSigAll fuel r with
        | some ts => some (t :: ts)
        | none => none
      | none => none

/-- Padding bytes needed to advance `off` to a multiple of `a`. -/
def padTo (off a : Nat) : Nat := (a - off % a) % a

/-- Little-endian byte serialization of `n` in `w` bytes. -/
def encNatLE : Nat → Nat → List Nat
  | 0, _ => []
  | w + 1, n => n % 256 :: encNatLE w (n / 256)

/-- Modelled from the spec: fixed-width unsigned integer serialization; the
"1-byte endianness marker selects subsequent integer byte order", so both
orders exist and `le` selects little-endian. -/
def encNat (le : Bool) (w n : Nat) : List Nat :=
  if le then encNatLE w n else (encNatLE w n).reverse

/-- Little-endian read of `w` bytes off the front of `bs`. -/
def decNatLE : Nat → List Nat → Nat
  | 0, _ => 0
  | _ + 1, [] => 0
  | w + 1, b :: bs => b + 256 * decNatLE w bs

/-- Endianness-aware read of `w` bytes off the front of `bs`. -/
def decNat (le : Bool) (w : Nat) (bs : List Nat) : Nat :=
  if le then decNatLE w bs else decNatLE w ((List.take w bs).reverse)

/-- Two's-complement serialization of a signed integer in `w` bytes. -/
def encInt (le : Bool) (w : Nat) (i : Int) : List Nat :=
  encNat le w (i % ((256 : Int) ^ w)).toNat

/-- Two's-complement read of a signed integer of `w` bytes. -/
def decInt (le : Bool) (w : Nat) (bs : List Nat) : Int :=
  if 2 * decNat le w bs < 256 ^ w then (decNat le w bs : Int)
  else (decNat le w bs : Int) - (256 : Int) ^ w

/-- Modelled from the spec: the data model of message body values — "a
tagged union keyed by the signature's type code" (§9), covering every type
code of §4.1.  `double` is carried as its 64-bit pattern; strings carry
their raw bytes. -/
inductive DBusValue where
  | byte (b : Nat)
  | boolean (b : Bool)
  | int16 (i : Int)
  | uint16 (n : Nat)
  | int32 (i : Int)
  | uint32 (n : Nat)
  | int64 (i : Int)
  | uint64 (n : Nat)
  | double (bits : Nat)
  | string (bytes : List Nat)
  | objectPath (bytes : List Nat)
  | signature (ts : List DBusType)
  | unixFd (n : Nat)
  | array (elem : DBusType) (xs : List DBusValue)
  | struct (fields : List DBusValue)
  | dictEntry (key value : DBusValue)
  | variant (payload : DBusValue)

mutual

/-- The type of a value (arrays carry their element type so that empty
arrays are typed). -/
def typeOfV : DBusValue → DBusType
  | .byte _ => .byte
  | .boolean _ => .boolean
  | .int16 _ => .int16
  | .uint16 _ => .uint16
  | .int32 _ => .int32
  | .uint32 _ => .uint32
  | .int64 _ => .int64
  | .uint64 _ => .uint64
  | .double _ => .double
  | .string _ => .string
  | .objectPath _ => .objectPath
  | .signature _ => .signature
  | .unixFd _ => .unixFd
  | .array t _ => .array t
  | .struct xs => .struct (typeOfL xs)
  | .dictEntry k v => .dictEntry (typeOfV k) (typeOfV v)
  | .variant _ => .variant

def typeOfL : List DBusValue → List DBusType
  | [] => []
  | v :: vs => typeOfV v :: typeOfL vs

end

mutual

/-- Modelled from the spec (§4.1): serialize one value at absolute offset
`off` from the start of the message, emitting alignment padding first;
strings are u32-length-prefixed and NUL-terminated, signatures are
u8-length-prefixed and NUL-terminated, arrays are byte-length prefixed and
pad to their element alignment, structs and dict entries are 8-aligned,
variants carry the payload's signature then the payload. -/
def encValue (le : Bool) (off : Nat) (v : DBusValue) : List Nat :=
  match v with
  | .byte b => [b % 256]
  | .boolean b =>
    List.replicate (padTo off 4) 0 ++ encNat le 4 (if b then 1 else 0)
  | .int16 i => List.replicate (padTo off 2) 0 ++ encInt le 2 i
  | .uint16 n => List.replicate (padTo off 2) 0 ++ encNat le 2 n
  | .int32 i => List.replicate (padTo off 4) 0 ++ encInt le 4 i
  | .uint32 n => List.replicate (padTo off 4) 0 ++ encNat le 4 n
  | .int64 i => List.replicate (padTo off 8) 0 ++ encInt le 8 i
  | .uint64 n => List.replicate (padTo off 8) 0 ++ encNat le 8 n
  | .double bits => List.replicate (padTo off 8) 0 ++ encNat le 8 bits
  | .string s =>
    List.replicate (padTo off 4) 0 ++ (encNat le 4 s.length ++ (s ++ [0]))
  | .objectPath s =>
    List.replicate (padTo off 4) 0 ++ (encNat le 4 s.length ++ (s ++ [0]))
  | .signature ts => (sigOfList ts).length :: (sigOfList ts ++ [0])
  | .unixFd n => List.replicate (padTo off 4) 0 ++ encNat le 4 n
  | .array t xs =>
    let p1 := padTo off 4
    let p2 := padTo (off + p1 + 4) (alignOf t)
    let content := encList le (off + p1 + 4 + p2) xs
    List.replicate p1 0 ++ (encNat le 4 content.length ++ (List.replicate p2 0 ++ content))
  | .struct xs =>
    let p := padTo off 8
    List.replicate p 0 ++ encList le (off + p) xs
  | .dictEntry k v =>
    let p := padTo off 8
    let ek := encValue le (off + p) k
    List.replicate p 0 ++ (ek ++ encValue le (off + p + ek.length) v)
  | .variant p =>
    let sg := sigOf (typeOfV p)
    let hd := sg.length :: (sg ++ [0])
    hd ++ encValue le (off + hd.length) p

/-- Serialize a list of values at consecutive (aligned) offsets. -/
def encList (le : Bool) (off : Nat) (vs : List DBusValue) : List Nat :=
  match vs with
  | [] => []
  | v :: vs1 =>
    let e := encValue le off v
    e ++ encList le (off + e.length) vs1

end

mutual

/-- Offset-independent upper bound on the encoded size of a value (each
node may cost up to 7 bytes of padding). -/
def sizeUB : DBusValue → Nat
  | .byte _ => 1
  | .boolean _ => 11
  | .int16 _ => 9
  | .uint16 _ => 9
  | .int32 _ => 11
  | .uint32 _ => 11
  | .int64 _ => 15
  | .uint64 _ => 15
  | .double _ => 15
  | .string s => 12 + s.length
  | .objectPath s => 12 + s.length
  | .signature ts => 2 + (sigOfList ts).length
  | .unixFd _ => 11
  | .array _ xs => 18 + sizeUBL xs
  | .struct xs => 7 + sizeUBL xs
  | .dictEntry k v => 7 + sizeUB k + sizeUB v
  | .variant p => 2 + (sigOf (typeOfV p)).length + sizeUB p

def sizeUBL : List DBusValue → Nat
  | [] => 0
  | v :: vs => sizeUB v + sizeUBL vs

end

/-- String payload bytes are genuine nonzero bytes. -/
def strBytesOK (s : List Nat) : Prop :=
  ∀ b ∈ s, 0 < b ∧ b < 256

/-- All values in the list have the given element type. -/
def allTyped (t : DBusType) : List DBusValue → Prop
  | [] => True
  | v :: vs => typeOfV v = t ∧ allTyped t vs

mutual

/-- Well-formedness of a value: numbers in range, string bytes nonzero
bytes, signatures parseable within bounds, array elements sharing the
declared element type and small enough for the u32 byte-length prefix,
structs nonempty, variant payloads of parseable type. -/
def wfValue : DBusValue → Prop
  | .byte b => b < 256
  | .boolean _ => True
  | .int16 i => -((256 : Int) ^ 2) ≤ 2 * i ∧ 2 * i < (256 : Int) ^ 2
  | .uint16 n => n < 256 ^ 2
  | .int32 i => -((256 : Int) ^ 4) ≤ 2 * i ∧ 2 * i < (256 : Int) ^ 4
  | .uint32 n => n < 256 ^ 4
  | .int64 i => -((256 : Int) ^ 8) ≤ 2 * i ∧ 2 * i < (256 : Int) ^ 8
  | .uint64 n => n < 256 ^ 8
  | .double bits => bits < 256 ^ 8
  | .string s => strBytesOK s ∧ s.length < 256 ^ 4
  | .objectPath s => strBytesOK s ∧ s.length < 256 ^ 4
  | .signature ts =>
    (sigOfList ts).length < 256 ∧ depthList ts ≤ maxDepth
      ∧ structsNonemptyList ts = true
  | .unixFd n => n < 256 ^ 4
  | .array t xs =>
    allTyped t xs ∧ wfList xs ∧ sizeUBL xs < 256 ^ 4
  | .struct xs => xs ≠ [] ∧ wfList xs
  | .dictEntry k v => wfValue k ∧ wfValue v
  | .variant p => typeOK (typeOfV p) = true ∧ wfValue p

def wfList : List DBusValue → Prop
  | [] => True
  | v :: vs => wfValue v ∧ wfList vs

end

mutual

/-- How much decoder fuel a value needs: one unit per array element and per
variant unwrapping. -/
def fuelV : DBusValue → Nat
  | .struct xs => fuelL xs
  | .dictEntry k v => fuelV k + fuelV v
  | .array _ xs => fuelE xs
  | .variant p => 1 + fuelV p
  | _ => 0

def fuelL : List DBusValue → Nat
  | [] => 0
  | v :: vs => fuelV v + fuelL vs

def fuelE : List DBusValue → Nat
  | [] => 0
  | v :: vs => 1 + fuelV v + fuelE vs

end

/-- Shared layout of string-like values (string and object path): u32
length, bytes, NUL. -/
def decStr (le : Bool) (mk : List Nat → DBusValue) (off : Nat)
    (bs : List Nat) : Option (DBusValue × Nat) :=
  if bs.length < padTo off 4 + 4 then none
  else
    let bs1 := bs.drop (padTo off 4)
    let len := decNat le 4 bs1
    if bs1.length < 4 + len + 1 then none
    else if (bs1.drop (4 + len)).head? = some 0 then
      some (mk ((bs1.drop 4).take len), padTo off 4 + 4 + len + 1)
    else none

mutual

/-- Modelled from the spec (§4.1): decode one value of type `t` at absolute
offset `off` from the front of `bs`, returning the value and the number of
bytes consumed (alignment padding included); `none` is a protocol error or
truncation.  `fuel` bounds the work (one unit per array element and per
variant payload); the top-level entry points supply fuel derived from the
input length, which suffices because every value occupies at least one
byte. -/
def decValue (fuel : Nat) (le : Bool) (t : DBusType) (off : Nat)
    (bs : List Nat) : Option (DBusValue × Nat) :=
  match t with
  | .byte =>
    match bs with
    | b :: _ => some (.byte b, 1)
    | [] => none
  | .boolean =>
    if bs.length < padTo off 4 + 4 then none
    else
      match decNat le 4 (bs.drop (padTo off 4)) with
      | 0 => some (.boolean false, padTo off 4 + 4)
      | 1 => some (.boolean true, padTo off 4 + 4)
      | _ + 2 => none
  | .int16 =>
    if bs.length < padTo off 2 + 2 then none
    else some (.int16 (decInt le 2 (bs.drop (padTo off 2))), padTo off 2 + 2)
  | .uint16 =>
    if bs.length < padTo off 2 + 2 then none
    else some (.uint16 (decNat le 2 (bs.drop (padTo off 2))), padTo off 2 + 2)
  | .int32 =>
    if bs.length < padTo off 4 + 4 then none
    else some (.int32 (decInt le 4 (bs.drop (padTo off 4))), padTo off 4 + 4)
  | .uint32 =>
    if bs.length < padTo off 4 + 4 then none
    else some (.uint32 (decNat le 4 (bs.drop (padTo off 4))), padTo off 4 + 4)
  | .int64 =>
    if bs.length < padTo off 8 + 8 then none
    else some (.int64 (decInt le 8 (bs.drop (padTo off 8))), padTo off 8 + 8)
  | .uint64 =>
    if bs.length < padTo off 8 + 8 then none
    else some (.uint64 (decNat le 8 (bs.drop (padTo off 8))), padTo off 8 + 8)
  | .double =>
    if bs.length < padTo off 8 + 8 then none
    else some (.double (decNat le 8 (bs.drop (padTo off 8))), padTo off 8 + 8)
  | .string =>
    decStr le DBusValue.string off bs
  | .objectPath =>
    decStr le DBusValue.objectPath off bs
  | .signature =>
    match bs with
    | [] => none
    | l :: bs1 =>
      if bs1.length < l + 1 then none
      else if (bs1.drop l).head? = some 0 then
        match parseSigAll (l + 1) (bs1.take l) with
        | some ts => some (.signature ts, 1 + l + 1)
        | none => none
      else none
  | .unixFd =>
    if bs.length < padTo off 4 + 4 then none
    else some (.unixFd (decNat le 4 (bs.drop (padTo off 4))), padTo off 4 + 4)
  | .array t1 =>
    if bs.length < padTo off 4 + 4 then none
    else
      let len := decNat le 4 (bs.drop (padTo off 4))
      let p2 := padTo (off + padTo off 4 + 4) (alignOf t1)
      if bs.length < padTo off 4 + 4 + p2 + len then none
      else
        match decElems fuel le t1 (off + padTo off 4 + 4 + p2)
            ((bs.drop (padTo off 4 + 4 + p2)).take len) len with
        | some vs => some (.array t1 vs, padTo off 4 + 4 + p2 + len)
        | none => none
  | .struct ts =>
    match decSeq fuel le ts (off + padTo off 8) (bs.drop (padTo off 8)) with
    | some (vs, n) => some (.struct vs, padTo off 8 + n)
    | none => none
  | .dictEntry tk tv =>
    match decValue fuel le tk (off + padTo off 8) (bs.drop (padTo off 8)) with
    | some (k, nk) =>
      match decValue fuel le tv (off + padTo off 8 + nk)
          (bs.drop (padTo off 8 + nk)) with
      | some (v, nv) => some (.dictEntry k v, padTo off 8 + nk + nv)
      | none => none
    | none => none
  | .variant =>
    match fuel with
    | 0 => none
    | fuel + 1 =>
      match bs with
      | [] => none
      | l :: bs1 =>
        if bs1.length < l + 1 then none
        else if (bs1.drop l).head? = some 0 then
          match parseSigType (l + 1) maxDepth (bs1.take l) with
          | some (t1, []) =>
            match decValue fuel le t1 (off + 1 + l + 1) (bs1.drop (l + 1)) with
            | some (v, n) => some (.variant v, 1 + l + 1 + n)
            | none => none
          | some (_, _ :: _) => none
          | none => none
        else none

/-- Decode a sequence of values of the given types at consecutive
offsets. -/
def decSeq (fuel : Nat) (le : Bool) (ts : List DBusType) (off : Nat)
    (bs : List Nat) : Option (List DBusValue × Nat) :=
  match ts with
  | [] => some ([], 0)
  | t :: ts1 =>
    match decValue fuel le t off bs with
    | some (v, n) =>
      match decSeq fuel le ts1 (off + n) (bs.drop n) with
      | some (vs, m) => some (v :: vs, n + m)
      | none => none
    | none => none

/-- Decode array elements of type `t` until exactly `remaining` bytes are
consumed; a zero-byte element is a protocol error (empty structs are
rejected at signature parse time, so it cannot arise from honest input). -/
def decElems (fuel : Nat) (le : Bool) (t : DBusType) (off : Nat)
    (bs : List Nat) (remaining : Nat) : Option (List DBusValue) :=
  match remaining with
  | 0 => some []
  | _ + 1 =>
    match fuel with
    | 0 => none
    | fuel + 1 =>
      match decValue fuel le t off bs with
      | some (v, n) =>
        if n = 0 then none
        else if remaining < n then none
        else
          match decElems fuel le t (off + n) (bs.drop n) (remaining - n) with
          | some vs => some (v :: vs)
          | none => none
      | none => none

end

/-- Modelled from the spec (§3): the four message kinds. -/
inductive MsgType where
  | methodCall
  | methodReturn
  | error
  | signal

/-- Wire code of a message kind. -/
def msgTypeCode : MsgType → Nat
  | .methodCall => 1
  | .methodReturn => 2
  | .error => 3
  | .signal => 4

/-- Message kind of a wire code. -/
def msgTypeOfCode : Nat → Option MsgType
  | 1 => some .methodCall
  | 2 => some .methodReturn
  | 3 => some .error
  | 4 => some .signal
  | _ => none

/-- Modelled from the spec (§3): a Message — header {type, protocol
version, serial, sender, optional destination, path, interface, member,
error-name, reply-serial, body signature} and body.  The body is carried as
typed values; its signature and byte length are derived during encoding.
Name strings are carried as their raw bytes. -/
structure Message where
  msgType : MsgType
  version : Nat
  serial : Nat
  path : Option (List Nat)
  interface : Option (List Nat)
  member : Option (List Nat)
  errorName : Option (List Nat)
  replySerial : Option Nat
  destination : Option (List Nat)
  sender : Option (List Nat)
  body : List DBusValue

/-- One optional (code, variant) header-field entry. -/
def optField (code : Nat) : Option DBusValue → List DBusValue
  | some x => [.struct [.byte code, .variant x]]
  | none => []

/-- The header-field entries of a message, in fixed encoding order; the
body-signature field is always present. -/
def fieldsList (m : Message) : List DBusValue :=
  optField 1 (m.path.map DBusValue.objectPath)
    ++ (optField 2 (m.interface.map DBusValue.string)
    ++ (optField 3 (m.member.map DBusValue.string)
    ++ (optField 4 (m.errorName.map DBusValue.string)
    ++ (optField 5 (m.replySerial.map DBusValue.uint32)
    ++ (optField 6 (m.destination.map DBusValue.string)
    ++ (optField 7 (m.sender.map DBusValue.string)
    ++ [.struct [.byte 8, .variant (.signature (typeOfL m.body))]]))))))

/-- Modelled from the spec (§4.1): "a header-fields array of (code, variant
value) pairs". -/
def headerFields (m : Message) : DBusValue :=
  .array (.struct [.byte, .variant]) (fieldsList m)

/-- Modelled from the spec (§4.1): serialize a whole message, little
endian: marker `l`, type code, protocol version, a reserved zero byte, body
byte length (u32), serial (u32), the header-fields array at offset 12,
padding to an 8-byte boundary, then the body described by its signature. -/
def encodeMessage (m : Message) : List Nat :=
  let fields := encValue true 12 (headerFields m)
  let pad := padTo (12 + fields.length) 8
  let body := encList true (12 + fields.length + pad) m.body
  [108, msgTypeCode m.msgType, m.version % 256, 0]
    ++ (encNat true 4 body.length
    ++ (encNat true 4 m.serial
    ++ (fields
    ++ (List.replicate pad 0
    ++ body))))

/-- The header fields accumulated during decoding. -/
structure HFields where
  path : Option (List Nat)
  interface : Option (List Nat)
  member : Option (List Nat)
  errorName : Option (List Nat)
  replySerial : Option Nat
  destination : Option (List Nat)
  sender : Option (List Nat)
  sig : List DBusType

/-- No header field seen yet; the body signature defaults to empty. -/
def emptyHF : HFields := ⟨none, none, none, none, none, none, none, []⟩

/-- View a decoded entry as a (code, variant payload) pair. -/
def asEntry : DBusValue → Option (Nat × DBusValue)
  | .struct [DBusValue.byte code, DBusValue.variant p] => some (code, p)
  | _ => none

/-- View a value as an object path. -/
def asPath : DBusValue → Option (List Nat)
  | .objectPath s => some s
  | _ => none

/-- View a value as a string. -/
def asStr : DBusValue → Option (List Nat)
  | .string s => some s
  | _ => none

/-- View a value as a u32. -/
def asU32 : DBusValue → Option Nat
  | .uint32 n => some n
  | _ => none

/-- View a value as a signature. -/
def asSig : DBusValue → Option (List DBusType)
  | .signature ts => some ts
  | _ => none

/-- Interpret one decoded (code, variant) entry. -/
def applyField (r : HFields) (v : DBusValue) : Option HFields :=
  match asEntry v with
  | none => none
  | some (code, p) =>
    if code = 1 then
      (asPath p).map (fun s => ⟨some s, r.interface, r.member, r.errorName,
        r.replySerial, r.destination, r.sender, r.sig⟩)
    else if code = 2 then
      (asStr p).map (fun s => ⟨r.path, some s, r.member, r.errorName,
        r.replySerial, r.destination, r.sender, r.sig⟩)
    else if code = 3 then
      (asStr p).map (fun s => ⟨r.path, r.interface, some s, r.errorName,
        r.replySerial, r.destination, r.sender, r.sig⟩)
    else if code = 4 then
      (asStr p).map (fun s => ⟨r.path, r.interface, r.member, some s,
        r.replySerial, r.destination, r.sender, r.sig⟩)
    else if code = 5 then
      (asU32 p).map (fun n => ⟨r.path, r.interface, r.member, r.errorName,
        some n, r.destination, r.sender, r.sig⟩)
    else if code = 6 then
      (asStr p).map (fun s => ⟨r.path, r.interface, r.member, r.errorName,
        r.replySerial, some s, r.sender, r.sig⟩)
    else if code = 7 then
      (asStr p).map (fun s => ⟨r.path, r.interface, r.member, r.errorName,
        r.replySerial, r.destination, some s, r.sig⟩)
    else if code = 8 then
      (asSig p).map (fun ts => ⟨r.path, r.interface, r.member, r.errorName,
        r.replySerial, r.destination, r.sender, ts⟩)
    else none

/-- Interpret all decoded header-field entries in order. -/
def foldFields (r : HFields) : List DBusValue → Option HFields
  | [] => some r
  | v :: vs =>
    match applyField r v with
    | some r2 => foldFields r2 vs
    | none => none

/-- Modelled from the spec (§4.1): the result of `decode` — a message with
the bytes consumed, `NeedMoreData` on truncation, or a protocol error. -/
inductive DecodeResult where
  | ok (m : Message) (consumed : Nat)
  | needMoreData
  | protocolError

/-- Modelled from the spec (§4.1): "a hard maximum total message size
(configurable; default in the tens of megabytes)" — 32 MiB here. -/
def maxMessageSize : Nat := 33554432

/-- Decode a message whose endianness marker selected byte order `le`. -/
def decodeWith (le : Bool) (bs : List Nat) : DecodeResult :=
  match bs with
  | _mk :: ty :: ver :: _z :: tl =>
    let bodyLen := decNat le 4 tl
    let falen := decNat le 4 (tl.drop 8)
    let total := 16 + falen + padTo (16 + falen) 8 + bodyLen
    if maxMessageSize < total then .protocolError
    else if bs.length < total then .needMoreData
    else
      match msgTypeOfCode ty with
      | none => .protocolError
      | some mt =>
        match decValue (bs.length + 1) le (.array (.struct [.byte, .variant]))
            12 (bs.drop 12) with
        | none => .protocolError
        | some (fv, nf) =>
          match fv with
          | .array _ fvs =>
            match foldFields emptyHF fvs with
            | none => .protocolError
            | some r =>
              match decSeq (bs.length + 1) le r.sig
                  (12 + nf + padTo (12 + nf) 8)
                  ((bs.drop (12 + nf + padTo (12 + nf) 8)).take bodyLen) with
              | some (vals, nb) =>
                if nb = bodyLen then
                  .ok ⟨mt, ver, decNat le 4 (tl.drop 4), r.path, r.interface,
                    r.member, r.errorName, r.replySerial, r.destination,
                    r.sender, vals⟩
                    (12 + nf + padTo (12 + nf) 8 + bodyLen)
                else .protocolError
              | none => .protocolError
          | _ => .protocolError
  | _ => .needMoreData

/-- Modelled from the spec (§4.1): `decode(bytes) -> (Message, bytes
consumed)` or `NeedMoreData`; the leading endianness marker selects the
byte order of all subsequent integers; malformed input is a protocol
error. -/
def decodeMessage (bs : List Nat) : DecodeResult :=
  match bs with
  | [] => .needMoreData
  | mk :: _ =>
    if bs.length < 16 then .needMoreData
    else if mk = 108 then decodeWith true bs
    else if mk = 66 then decodeWith false bs
    else .protocolError

/-- Well-formed message: version a byte, serial a u32, well-formed header
fields and body, and total size within the maximum. -/
def wfMessage (m : Message) : Prop :=
  m.version < 256 ∧ m.serial < 256 ^ 4
    ∧ wfValue (headerFields m)
    ∧ wfList m.body
    ∧ 24 + sizeUB (headerFields m) + sizeUBL m.body ≤ maxMessageSize

end Wire

/-- A concrete message exercising scalars, a string, an array and a
variant, used to witness the round-trip theorem. -/
def wireWitnessMsg : Wire.Message :=
  ⟨.methodCall, 1, 7, some [47, 97], some [105, 102], some [109, 101],
   none, none, some [100, 100], some [58, 49],
   [.uint32 5, .string [104, 105], .variant (.array .byte [.byte 1, .byte 2])]⟩

namespace Busd

/-- The events emitted by `main` once the bus exists and the readiness write
and signal registration succeed: the readiness notification, the optional
address print, the optional child spawn, the resolved `select!` branch, the
cleanup call and the optional cleanup-failure log. -/
theorem mainRun_reach (args : Args) (env : Env) (config : Config) (bus : Bus)
    (hc : env.configResult = .ok config) (hb : env.busResult = .ok bus)
    (hw : env.readyWriteOk = true) (hs : env.signalOk = true) :
    mainRun args env =
      ([Event.readConfigFile (configPath args),
        Event.forAddress (resolvedAddress args config)]
        ++ (match args.ready_fd with
            | some fd => [Event.readyWrite fd readyBytes, Event.readyClose fd]
            | none => [])
        ++ (if args.print_address then [Event.printAddress bus.address] else [])
        ++ (match run_command args.command bus.address with
            | .pending => []
            | .runs p a k v => [Event.spawnChild p a k v])
        ++ [Event.selectDone env.selectOutcome, Event.cleanup]
        ++ cleanupLog env.cleanupResult,
       .ok ()) := by
  unfold mainRun
  rw [hc, hb]
  simp [hw, hs]

/-- When `--ready-fd` is absent, no `readyWrite` event ever appears. -/
theorem mainRun_no_ready (args : Args) (env : Env) (hfd : args.ready_fd = none)
    (fd : Int) (bs : List Nat) :
    Event.readyWrite fd bs ∉ (mainRun args env).1 := by
  unfold mainRun
  cases hc : env.configResult with
  | error e => simp
  | ok config =>
    cases hb : env.busResult with
    | error e => simp
    | ok bus =>
      rw [hfd]
      cases hsk : env.signalOk <;> cases hpa : args.print_address <;>
        cases hcmd : args.command <;> cases hcr : env.cleanupResult <;>
          simp [hsk, hpa, hcmd, hcr, run_command, cleanupLog]

/-- When `--ready-fd` is present and the bus was created, the trace starts
with the configuration read, the `for_address` call, and the readiness
write-then-close. -/
theorem mainRun_ready_shape (args : Args) (env : Env) (config : Config)
    (bus : Bus) (fd : Int)
    (hc : env.configResult = .ok config) (hb : env.busResult = .ok bus)
    (hfd : args.ready_fd = some fd) :
    ∃ rest, (mainRun args env).1 =
      [Event.readConfigFile (configPath args),
       Event.forAddress (resolvedAddress args config),
       Event.readyWrite fd readyBytes,
       Event.readyClose fd] ++ rest := by
  unfold mainRun
  rw [hc, hb, hfd]
  cases hwk : env.readyWriteOk with
  | false => exact ⟨[], by simp [hwk]⟩
  | true =>
    cases hsk : env.signalOk with
    | false =>
      exact ⟨(if args.print_address = true then [Event.printAddress bus.address] else []),
        by simp [hwk, hsk]⟩
    | true =>
      exact ⟨(if args.print_address = true then [Event.printAddress bus.address] else [])
          ++ (match run_command args.command bus.address with
              | .pending => []
              | .runs p a k v => [Event.spawnChild p a k v])
          ++ [Event.selectDone env.selectOutcome, Event.cleanup]
          ++ cleanupLog env.cleanupResult,
        by simp [hwk, hsk]⟩

end Busd

namespace Wire

/-- Every serialized type is nonempty. -/
theorem sigOf_length_pos (t : DBusType) : 0 < (sigOf t).length := by
  cases t <;> simp [sigOf]

/-- Every serialized type starts with a code byte that is neither `)` nor
`\x7d`. -/
theorem sigOf_cons (t : DBusType) :
    ∃ c cs, sigOf t = c :: cs ∧ c ≠ 41 ∧ c ≠ 125 := by
  cases t <;> exact ⟨_, _, rfl, by decide, by decide⟩

theorem encNatLE_length (w n : Nat) : (encNatLE w n).length = w := by
  induction w generalizing n with
  | zero => rfl
  | succ w ih => simp [encNatLE, ih]

theorem encNat_length (le : Bool) (w n : Nat) : (encNat le w n).length = w := by
  cases le <;> simp [encNat, encNatLE_length]

theorem encInt_length (le : Bool) (w : Nat) (i : Int) :
    (encInt le w i).length = w := by
  simp [encInt, encNat_length]

theorem decNatLE_encNatLE (w n : Nat) (rest : List Nat) (h : n < 256 ^ w) :
    decNatLE w (encNatLE w n ++ rest) = n := by
  induction w generalizing n with
  | zero =>
    simp [encNatLE, decNatLE]
    omega
  | succ w ih =>
    have hdiv : n / 256 < 256 ^ w := by
      rw [pow_succ] at h
      omega
    simp only [encNatLE, List.cons_append, decNatLE, List.append_eq]
    rw [ih (n / 256) hdiv]
    omega

theorem decNat_encNat (le : Bool) (w n : Nat) (rest : List Nat)
    (h : n < 256 ^ w) :
    decNat le w (encNat le w n ++ rest) = n := by
  cases le with
  | true =>
    simp only [decNat, encNat, if_true]
    exact decNatLE_encNatLE w n rest h
  | false =>
    have hlen : (encNatLE w n).reverse.length = w := by
      simp [encNatLE_length]
    simp only [decNat, encNat, if_neg, Bool.false_eq_true, if_false]
    rw [List.take_left' hlen, List.reverse_reverse]
    have h0 := decNatLE_encNatLE w n [] h
    rw [List.append_nil] at h0
    exact h0

theorem decInt_encInt (le : Bool) (w : Nat) (i : Int) (rest : List Nat)
    (h1 : -((256 : Int) ^ w) ≤ 2 * i) (h2 : 2 * i < (256 : Int) ^ w) :
    decInt le w (encInt le w i ++ rest) = i := by
  have hMpos : (0 : Int) < (256 : Int) ^ w := by positivity
  have hcast : (((256 : Nat) ^ w : Nat) : Int) = (256 : Int) ^ w := by push_cast; ring
  have hmod0 : 0 ≤ i % ((256 : Int) ^ w) := Int.emod_nonneg i (by omega)
  have hmodlt : i % ((256 : Int) ^ w) < (256 : Int) ^ w := Int.emod_lt_of_pos i hMpos
  have htn : (i % ((256 : Int) ^ w)).toNat < 256 ^ w := by omega
  have hm := decNat_encNat le w (i % ((256 : Int) ^ w)).toNat rest htn
  unfold decInt encInt
  rw [hm]
  rcases le_or_lt 0 i with hnn | hneg
  · have hilt : i < (256 : Int) ^ w := by omega
    have hmodeq : i % ((256 : Int) ^ w) = i := Int.emod_eq_of_lt hnn hilt
    rw [hmodeq]
    have hcond : 2 * i.toNat < 256 ^ w := by omega
    simp only [if_pos hcond]
    omega
  · have hge : -((256 : Int) ^ w) ≤ i := by omega
    have e1 : (i + (256 : Int) ^ w) % ((256 : Int) ^ w) = i % ((256 : Int) ^ w) := by
      have h3 := Int.add_mul_emod_self_left (a := i) (b := (256 : Int) ^ w) (c := 1)
      rw [mul_one] at h3
      exact h3
    have e2 : (i + (256 : Int) ^ w) % ((256 : Int) ^ w) = i + (256 : Int) ^ w :=
      Int.emod_eq_of_lt (by omega) (by omega)
    have hmodeq : i % ((256 : Int) ^ w) = i + (256 : Int) ^ w := by rw [← e1, e2]
    rw [hmodeq]
    have hcond : ¬ 2 * (i + (256 : Int) ^ w).toNat < 256 ^ w := by omega
    rw [if_neg hcond]
    omega

mutual

/-- Parsing the serialized form of a type yields the type back, leaving the
trailing bytes. -/
theorem parseSigType_sigOf (t : DBusType) (rest : List Nat) (fuel depth : Nat)
    (hf : (sigOf t).length < fuel) (hd : depthOf t ≤ depth)
    (hne : structsNonempty t = true) :
    parseSigType fuel depth (sigOf t ++ rest) = some (t, rest) := by
  obtain ⟨f, rfl⟩ : ∃ f, fuel = f + 1 := ⟨fuel - 1, by omega⟩
  cases t with
  | byte => simp [sigOf, parseSigType]
  | boolean => simp [sigOf, parseSigType]
  | int16 => simp [sigOf, parseSigType]
  | uint16 => simp [sigOf, parseSigType]
  | int32 => simp [sigOf, parseSigType]
  | uint32 => simp [sigOf, parseSigType]
  | int64 => simp [sigOf, parseSigType]
  | uint64 => simp [sigOf, parseSigType]
  | double => simp [sigOf, parseSigType]
  | string => simp [sigOf, parseSigType]
  | objectPath => simp [sigOf, parseSigType]
  | signature => simp [sigOf, parseSigType]
  | unixFd => simp [sigOf, parseSigType]
  | variant => simp [sigOf, parseSigType]
  | array t1 =>
    simp only [sigOf, List.length_cons] at hf
    simp only [depthOf] at hd
    simp only [structsNonempty] at hne
    obtain ⟨d, rfl⟩ : ∃ d, depth = d + 1 := ⟨depth - 1, by omega⟩
    have ih := parseSigType_sigOf t1 rest f d (by omega) (by omega) hne
    simp [sigOf, parseSigType, ih]
  | struct ts =>
    simp only [sigOf, List.length_cons, List.length_append,
      List.length_singleton] at hf
    simp only [depthOf] at hd
    simp only [structsNonempty, Bool.and_eq_true, Bool.not_eq_true'] at hne
    obtain ⟨d, rfl⟩ : ∃ d, depth = d + 1 := ⟨depth - 1, by omega⟩
    have ih := parseSigFields_sigOfList ts rest f d (by omega)
      (by omega) hne.2
    have hinput : sigOf (.struct ts) ++ rest
        = 40 :: (sigOfList ts ++ 41 :: rest) := by simp [sigOf]
    rw [hinput]
    simp [parseSigType, ih, hne.1]
  | dictEntry k v =>
    simp only [sigOf, List.length_cons, List.length_append] at hf
    simp only [depthOf] at hd
    simp only [structsNonempty, Bool.and_eq_true] at hne
    obtain ⟨d, rfl⟩ : ∃ d, depth = d + 1 := ⟨depth - 1, by omega⟩
    have hkpos := sigOf_length_pos k
    have hvpos := sigOf_length_pos v
    have ihk := parseSigType_sigOf k (sigOf v ++ 125 :: rest) f d (by omega)
      (by omega) hne.1
    have ihv := parseSigType_sigOf v (125 :: rest) f d (by omega)
      (by omega) hne.2
    have hinput : sigOf (.dictEntry k v) ++ rest
        = 123 :: (sigOf k ++ (sigOf v ++ 125 :: rest)) := by simp [sigOf]
    rw [hinput]
    simp [parseSigType, ihk, ihv]

/-- Parsing the serialized field list of a struct, followed by the closing
`)`, yields the field types back. -/
theorem parseSigFields_sigOfList (ts : List DBusType) (rest : List Nat)
    (fuel depth : Nat)
    (hf : (sigOfList ts).length + 2 ≤ fuel) (hd : depthList ts ≤ depth)
    (hne : structsNonemptyList ts = true) :
    parseSigFields fuel depth (sigOfList ts ++ 41 :: rest) = some (ts, rest) := by
  obtain ⟨f, rfl⟩ : ∃ f, fuel = f + 1 := ⟨fuel - 1, by omega⟩
  cases ts with
  | nil => simp [sigOfList, parseSigFields]
  | cons t ts1 =>
    simp only [sigOfList, List.length_append] at hf
    simp only [depthList, max_le_iff] at hd
    simp only [structsNonemptyList, Bool.and_eq_true] at hne
    have htpos := sigOf_length_pos t
    obtain ⟨c, cs, hsig, h41, _⟩ := sigOf_cons t
    have ih1 := parseSigType_sigOf t (sigOfList ts1 ++ 41 :: rest) f depth
      (by omega) hd.1 hne.1
    have ih2 := parseSigFields_sigOfList ts1 rest f depth (by omega) hd.2 hne.2
    have hinput : sigOfList (t :: ts1) ++ 41 :: rest
        = c :: (cs ++ (sigOfList ts1 ++ 41 :: rest)) := by simp [sigOfList, hsig]
    rw [hinput]
    simp only [parseSigFields]
    rw [if_neg h41]
    have hback : c :: (cs ++ (sigOfList ts1 ++ 41 :: rest))
        = sigOf t ++ (sigOfList ts1 ++ 41 :: rest) := by simp [hsig]
    rw [hback, ih1]
    simp [ih2]

end

theorem padTo_lt (off a : Nat) (h : 0 < a) : padTo off a < a :=
  Nat.mod_lt _ h

theorem alignOf_pos (t : DBusType) : 0 < alignOf t := by
  cases t <;> simp [alignOf]

theorem alignOf_le (t : DBusType) : alignOf t ≤ 8 := by
  cases t <;> simp [alignOf]

/-- A signature is at least as long as its number of types. -/
theorem sigOfList_length_ge (ts : List DBusType) :
    ts.length ≤ (sigOfList ts).length := by
  induction ts with
  | nil => simp [sigOfList]
  | cons t ts1 ih =>
    have := sigOf_length_pos t
    simp only [sigOfList, List.length_append, List.length_cons]
    omega

/-- Parsing a whole serialized signature yields the type list back. -/
theorem parseSigAll_sigOfList (ts : List DBusType) (fuel : Nat)
    (hf : ts.length < fuel) (hd : depthList ts ≤ maxDepth)
    (hne : structsNonemptyList ts = true) :
    parseSigAll fuel (sigOfList ts) = some ts := by
  induction ts generalizing fuel with
  | nil =>
    obtain ⟨f, rfl⟩ : ∃ f, fuel = f + 1 := ⟨fuel - 1, by omega⟩
    simp [sigOfList, parseSigAll]
  | cons t ts1 ih =>
    obtain ⟨f, rfl⟩ : ∃ f, fuel = f + 1 := ⟨fuel - 1, by omega⟩
    simp only [depthList, max_le_iff] at hd
    simp only [structsNonemptyList, Bool.and_eq_true] at hne
    obtain ⟨c, cs, hsig, _, _⟩ := sigOf_cons t
    have hsig1 : sigOfList (t :: ts1) = sigOf t ++ sigOfList ts1 := rfl
    have hlen : (sigOf t).length < (sigOf t ++ sigOfList ts1).length + 1 := by
      simp only [List.length_append]; omega
    rw [hsig1, hsig, List.cons_append]
    simp only [parseSigAll]
    rw [show c :: (cs ++ sigOfList ts1) = sigOf t ++ sigOfList ts1 by simp [hsig]]
    rw [parseSigType_sigOf t (sigOfList ts1)
      ((sigOf t ++ sigOfList ts1).length + 1) maxDepth hlen hd.1 hne.1]
    simp only [ih f (by simp at hf; omega) hd.2 hne.2]

mutual

/-- The encoded size of a value is bounded by its offset-independent upper
bound. -/
theorem encValue_le_sizeUB (le : Bool) (off : Nat) (v : DBusValue) :
    (encValue le off v).length ≤ sizeUB v := by
  cases v with
  | byte b => simp [encValue, sizeUB]
  | boolean b =>
    have hp := padTo_lt off 4 (by omega)
    simp only [encValue, sizeUB, List.length_append, List.length_replicate,
      encNat_length]
    omega
  | int16 i =>
    have hp := padTo_lt off 2 (by omega)
    simp only [encValue, sizeUB, List.length_append, List.length_replicate,
      encInt_length]
    omega
  | uint16 n =>
    have hp := padTo_lt off 2 (by omega)
    simp only [encValue, sizeUB, List.length_append, List.length_replicate,
      encNat_length]
    omega
  | int32 i =>
    have hp := padTo_lt off 4 (by omega)
    simp only [encValue, sizeUB, List.length_append, List.length_replicate,
      encInt_length]
    omega
  | uint32 n =>
    have hp := padTo_lt off 4 (by omega)
    simp only [encValue, sizeUB, List.length_append, List.length_replicate,
      encNat_length]
    omega
  | int64 i =>
    have hp := padTo_lt off 8 (by omega)
    simp only [encValue, sizeUB, List.length_append, List.length_replicate,
      encInt_length]
    omega
  | uint64 n =>
    have hp := padTo_lt off 8 (by omega)
    simp only [encValue, sizeUB, List.length_append, List.length_replicate,
      encNat_length]
    omega
  | double bits =>
    have hp := padTo_lt off 8 (by omega)
    simp only [encValue, sizeUB, List.length_append, List.length_replicate,
      encNat_length]
    omega
  | string s =>
    have hp := padTo_lt off 4 (by omega)
    simp only [encValue, sizeUB, List.length_append, List.length_replicate,
      List.length_cons, List.length_nil, encNat_length]
    omega
  | objectPath s =>
    have hp := padTo_lt off 4 (by omega)
    simp only [encValue, sizeUB, List.length_append, List.length_replicate,
      List.length_cons, List.length_nil, encNat_length]
    omega
  | signature ts =>
    simp only [encValue, sizeUB, List.length_append, List.length_cons,
      List.length_nil]
    omega
  | unixFd n =>
    have hp := padTo_lt off 4 (by omega)
    simp only [encValue, sizeUB, List.length_append, List.length_replicate,
      encNat_length]
    omega
  | array t xs =>
    have hp1 := padTo_lt off 4 (by omega)
    have hp2 := padTo_lt (off + padTo off 4 + 4) (alignOf t) (alignOf_pos t)
    have ha := alignOf_le t
    have ih := encList_le_sizeUBL le (off + padTo off 4 + 4
      + padTo (off + padTo off 4 + 4) (alignOf t)) xs
    simp only [encValue, sizeUB, List.length_append, List.length_replicate,
      encNat_length]
    omega
  | struct xs =>
    have hp := padTo_lt off 8 (by omega)
    have ih := encList_le_sizeUBL le (off + padTo off 8) xs
    simp only [encValue, sizeUB, List.length_append, List.length_replicate]
    omega
  | dictEntry k v1 =>
    have hp := padTo_lt off 8 (by omega)
    have ihk := encValue_le_sizeUB le (off + padTo off 8) k
    have ihv := encValue_le_sizeUB le
      (off + padTo off 8 + (encValue le (off + padTo off 8) k).length) v1
    simp only [encValue, sizeUB, List.length_append, List.length_replicate]
    omega
  | variant p =>
    have ihp := encValue_le_sizeUB le
      (off + ((sigOf (typeOfV p)).length :: (sigOf (typeOfV p) ++ [0])).length) p
    simp only [List.length_cons, List.length_append, List.length_nil] at ihp
    simp only [encValue, sizeUB, List.length_append, List.length_cons,
      List.length_nil]
    omega

theorem encList_le_sizeUBL (le : Bool) (off : Nat) (vs : List DBusValue) :
    (encList le off vs).length ≤ sizeUBL vs := by
  cases vs with
  | nil => simp [encList, sizeUBL]
  | cons v vs1 =>
    have ih1 := encValue_le_sizeUB le off v
    have ih2 := encList_le_sizeUBL le (off + (encValue le off v).length) vs1
    simp only [encList, sizeUBL, List.length_append]
    omega

end

mutual

/-- A well-formed value occupies at least one byte more than the decoder
fuel it needs. -/
theorem fuelV_lt_encValue (le : Bool) (off : Nat) (v : DBusValue)
    (h : wfValue v) : 1 + fuelV v ≤ (encValue le off v).length := by
  cases v with
  | byte b => simp [encValue, fuelV]
  | boolean b =>
    simp only [encValue, fuelV, List.length_append, List.length_replicate,
      encNat_length]
    omega
  | int16 i =>
    simp only [encValue, fuelV, List.length_append, List.length_replicate,
      encInt_length]
    omega
  | uint16 n =>
    simp only [encValue, fuelV, List.length_append, List.length_replicate,
      encNat_length]
    omega
  | int32 i =>
    simp only [encValue, fuelV, List.length_append, List.length_replicate,
      encInt_length]
    omega
  | uint32 n =>
    simp only [encValue, fuelV, List.length_append, List.length_replicate,
      encNat_length]
    omega
  | int64 i =>
    simp only [encValue, fuelV, List.length_append, List.length_replicate,
      encInt_length]
    omega
  | uint64 n =>
    simp only [encValue, fuelV, List.length_append, List.length_replicate,
      encNat_length]
    omega
  | double bits =>
    simp only [encValue, fuelV, List.length_append, List.length_replicate,
      encNat_length]
    omega
  | string s =>
    simp only [encValue, fuelV, List.length_append, List.length_replicate,
      List.length_cons, List.length_nil, encNat_length]
    omega
  | objectPath s =>
    simp only [encValue, fuelV, List.length_append, List.length_replicate,
      List.length_cons, List.length_nil, encNat_length]
    omega
  | signature ts =>
    simp only [encValue, fuelV, List.length_append, List.length_cons,
      List.length_nil]
    omega
  | unixFd n =>
    simp only [encValue, fuelV, List.length_append, List.length_replicate,
      encNat_length]
    omega
  | array t xs =>
    simp only [wfValue] at h
    have ih := fuelE_le_encList le (off + padTo off 4 + 4
      + padTo (off + padTo off 4 + 4) (alignOf t)) xs h.2.1
    simp only [encValue, fuelV, List.length_append, List.length_replicate,
      encNat_length]
    omega
  | struct xs =>
    simp only [wfValue] at h
    obtain ⟨hne, hwf⟩ := h
    cases xs with
    | nil => exact absurd rfl hne
    | cons x xs1 =>
      have ih1 := fuelV_lt_encValue le (off + padTo off 8) x hwf.1
      have ih2 := fuelL_le_encList le
        (off + padTo off 8 + (encValue le (off + padTo off 8) x).length) xs1 hwf.2
      simp only [encValue, fuelV, fuelL, encList, List.length_append,
        List.length_replicate]
      omega
  | dictEntry k v1 =>
    simp only [wfValue] at h
    have ihk := fuelV_lt_encValue le (off + padTo off 8) k h.1
    have ihv := fuelV_lt_encValue le
      (off + padTo off 8 + (encValue le (off + padTo off 8) k).length) v1 h.2
    simp only [encValue, fuelV, List.length_append, List.length_replicate]
    omega
  | variant p =>
    simp only [wfValue] at h
    have ihp := fuelV_lt_encValue le
      (off + ((sigOf (typeOfV p)).length :: (sigOf (typeOfV p) ++ [0])).length) p h.2
    simp only [List.length_cons, List.length_append, List.length_nil] at ihp
    simp only [encValue, fuelV, List.length_append, List.length_cons,
      List.length_nil]
    omega

theorem fuelL_le_encList (le : Bool) (off : Nat) (vs : List DBusValue)
    (h : wfList vs) : fuelL vs ≤ (encList le off vs).length := by
  cases vs with
  | nil => simp [encList, fuelL]
  | cons v vs1 =>
    simp only [wfList] at h
    have ih1 := fuelV_lt_encValue le off v h.1
    have ih2 := fuelL_le_encList le (off + (encValue le off v).length) vs1 h.2
    simp only [encList, fuelL, List.length_append]
    omega

theorem fuelE_le_encList (le : Bool) (off : Nat) (vs : List DBusValue)
    (h : wfList vs) : fuelE vs ≤ (encList le off vs).length := by
  cases vs with
  | nil => simp [encList, fuelE]
  | cons v vs1 =>
    simp only [wfList] at h
    have ih1 := fuelV_lt_encValue le off v h.1
    have ih2 := fuelE_le_encList le (off + (encValue le off v).length) vs1 h.2
    simp only [encList, fuelE, List.length_append]
    omega

end

/-- Dropping the first two chunks of a three-chunk append. -/
theorem drop_app2 {a b rest : List Nat} {n : Nat}
    (h : a.length + b.length = n) :
    (a ++ (b ++ rest)).drop n = rest := by
  rw [show a ++ (b ++ rest) = (a ++ b) ++ rest by simp,
    List.drop_left' (by simp only [List.length_append]; omega)]

/-- Dropping the first three chunks of a four-chunk append. -/
theorem drop_app3 {a b c rest : List Nat} {n : Nat}
    (h : a.length + b.length + c.length = n) :
    (a ++ (b ++ (c ++ rest))).drop n = rest := by
  rw [show a ++ (b ++ (c ++ rest)) = (a ++ b ++ c) ++ rest by simp,
    List.drop_left' (by simp only [List.length_append]; omega)]

mutual

/-- Round-trip at the value level: decoding the encoding of a well-formed
value (with any trailing bytes) returns the value and consumes exactly its
encoding. -/
theorem decValue_encValue (fuel : Nat) (le : Bool) (off : Nat)
    (v : DBusValue) (rest : List Nat) (hwf : wfValue v)
    (hfuel : fuelV v < fuel) :
    decValue fuel le (typeOfV v) off (encValue le off v ++ rest)
      = some (v, (encValue le off v).length) := by
  cases v with
  | byte b =>
    simp only [wfValue] at hwf
    simp only [typeOfV, encValue, List.cons_append, decValue, List.length_cons,
      List.length_nil]
    rw [Nat.mod_eq_of_lt hwf]
  | boolean b =>
    simp only [typeOfV, encValue, List.append_assoc, decValue]
    rw [if_neg (by simp [encNat_length]),
      List.drop_left' (List.length_replicate _ _),
      decNat_encNat le 4 (if b then 1 else 0) rest (by cases b <;> simp)]
    cases b <;> simp [encNat_length]
  | int16 i =>
    simp only [wfValue] at hwf
    simp only [typeOfV, encValue, List.append_assoc, decValue]
    rw [if_neg (by simp [encInt_length]),
      List.drop_left' (List.length_replicate _ _),
      decInt_encInt le 2 i rest hwf.1 hwf.2]
    simp [encInt_length]
  | uint16 n =>
    simp only [wfValue] at hwf
    simp only [typeOfV, encValue, List.append_assoc, decValue]
    rw [if_neg (by simp [encNat_length]),
      List.drop_left' (List.length_replicate _ _),
      decNat_encNat le 2 n rest hwf]
    simp [encNat_length]
  | int32 i =>
    simp only [wfValue] at hwf
    simp only [typeOfV, encValue, List.append_assoc, decValue]
    rw [if_neg (by simp [encInt_length]),
      List.drop_left' (List.length_replicate _ _),
      decInt_encInt le 4 i rest hwf.1 hwf.2]
    simp [encInt_length]
  | uint32 n =>
    simp only [wfValue] at hwf
    simp only [typeOfV, encValue, List.append_assoc, decValue]
    rw [if_neg (by simp [encNat_length]),
      List.drop_left' (List.length_replicate _ _),
      decNat_encNat le 4 n rest hwf]
    simp [encNat_length]
  | int64 i =>
    simp only [wfValue] at hwf
    simp only [typeOfV, encValue, List.append_assoc, decValue]
    rw [if_neg (by simp [encInt_length]),
      List.drop_left' (List.length_replicate _ _),
      decInt_encInt le 8 i rest hwf.1 hwf.2]
    simp [encInt_length]
  | uint64 n =>
    simp only [wfValue] at hwf
    simp only [typeOfV, encValue, List.append_assoc, decValue]
    rw [if_neg (by simp [encNat_length]),
      List.drop_left' (List.length_replicate _ _),
      decNat_encNat le 8 n rest hwf]
    simp [encNat_length]
  | double bits =>
    simp only [wfValue] at hwf
    simp only [typeOfV, encValue, List.append_assoc, decValue]
    rw [if_neg (by simp [encNat_length]),
      List.drop_left' (List.length_replicate _ _),
      decNat_encNat le 8 bits rest hwf]
    simp [encNat_length]
  | unixFd n =>
    simp only [wfValue] at hwf
    simp only [typeOfV, encValue, List.append_assoc, decValue]
    rw [if_neg (by simp [encNat_length]),
      List.drop_left' (List.length_replicate _ _),
      decNat_encNat le 4 n rest hwf]
    simp [encNat_length]
  | string s =>
    simp only [wfValue] at hwf
    simp only [typeOfV, encValue, List.append_assoc, decValue, decStr]
    rw [if_neg (by simp [encNat_length]),
      List.drop_left' (List.length_replicate _ _),
      decNat_encNat le 4 s.length (s ++ ([0] ++ rest)) hwf.2]
    rw [if_neg (by simp only [List.length_append, encNat_length,
      List.length_cons, List.length_nil]; omega)]
    rw [if_pos (by
      rw [show encNat le 4 s.length ++ (s ++ ([0] ++ rest))
          = (encNat le 4 s.length ++ s) ++ ([0] ++ rest) by simp,
        List.drop_left' (by simp [encNat_length])]
      rfl)]
    rw [List.drop_left' (encNat_length le 4 s.length), List.take_left' rfl]
    simp only [Option.some.injEq, Prod.mk.injEq, List.length_append,
      List.length_replicate, List.length_cons, List.length_nil, encNat_length]
    exact ⟨trivial, by omega⟩
  | objectPath s =>
    simp only [wfValue] at hwf
    simp only [typeOfV, encValue, List.append_assoc, decValue, decStr]
    rw [if_neg (by simp [encNat_length]),
      List.drop_left' (List.length_replicate _ _),
      decNat_encNat le 4 s.length (s ++ ([0] ++ rest)) hwf.2]
    rw [if_neg (by simp only [List.length_append, encNat_length,
      List.length_cons, List.length_nil]; omega)]
    rw [if_pos (by
      rw [show encNat le 4 s.length ++ (s ++ ([0] ++ rest))
          = (encNat le 4 s.length ++ s) ++ ([0] ++ rest) by simp,
        List.drop_left' (by simp [encNat_length])]
      rfl)]
    rw [List.drop_left' (encNat_length le 4 s.length), List.take_left' rfl]
    simp only [Option.some.injEq, Prod.mk.injEq, List.length_append,
      List.length_replicate, List.length_cons, List.length_nil, encNat_length]
    exact ⟨trivial, by omega⟩
  | signature ts =>
    simp only [wfValue] at hwf
    simp only [typeOfV, encValue, List.cons_append, decValue]
    rw [if_neg (by simp)]
    rw [if_pos (by
      rw [List.append_assoc, List.drop_left]
      rfl)]
    rw [List.append_assoc, List.take_left,
      parseSigAll_sigOfList ts ((sigOfList ts).length + 1)
        (by have := sigOfList_length_ge ts; omega) hwf.2.1 hwf.2.2]
    simp only [Option.some.injEq, Prod.mk.injEq, List.length_cons,
      List.length_append, List.length_nil]
    exact ⟨trivial, by omega⟩
  | array t xs =>
    simp only [wfValue] at hwf
    obtain ⟨hty, hwfl, hsz⟩ := hwf
    simp only [fuelV] at hfuel
    simp only [typeOfV, encValue, List.append_assoc, decValue]
    have hclen : (encList le (off + padTo off 4 + 4
        + padTo (off + padTo off 4 + 4) (alignOf t)) xs).length < 256 ^ 4 :=
      lt_of_le_of_lt (encList_le_sizeUBL le _ xs) hsz
    rw [if_neg (by simp [encNat_length]),
      List.drop_left' (List.length_replicate _ _),
      decNat_encNat le 4 _ _ hclen]
    rw [if_neg (by simp [encNat_length]; omega)]
    rw [drop_app3 (by simp [encNat_length])]
    rw [List.take_left]
    rw [decElems_encList fuel le
      (off + padTo off 4 + 4 + padTo (off + padTo off 4 + 4) (alignOf t)) t xs
      hty hwfl (by omega)]
    simp only [Option.some.injEq, Prod.mk.injEq, List.length_append,
      List.length_replicate, encNat_length]
    exact ⟨trivial, by omega⟩
  | struct xs =>
    simp only [wfValue] at hwf
    simp only [fuelV] at hfuel
    simp only [typeOfV, encValue, List.append_assoc, decValue]
    rw [List.drop_left' (List.length_replicate _ _),
      decSeq_encList fuel le (off + padTo off 8) xs rest hwf.2 hfuel]
    simp
  | dictEntry k v1 =>
    simp only [wfValue] at hwf
    simp only [fuelV] at hfuel
    simp only [typeOfV, encValue, List.append_assoc, decValue]
    rw [List.drop_left' (List.length_replicate _ _)]
    rw [decValue_encValue fuel le (off + padTo off 8) k
      (encValue le (off + padTo off 8
        + (encValue le (off + padTo off 8) k).length) v1 ++ rest)
      hwf.1 (by omega)]
    have hdrop2 : List.drop
        (padTo off 8 + (encValue le (off + padTo off 8) k).length)
        (List.replicate (padTo off 8) 0 ++ (encValue le (off + padTo off 8) k
          ++ (encValue le (off + padTo off 8
            + (encValue le (off + padTo off 8) k).length) v1 ++ rest)))
        = encValue le (off + padTo off 8
            + (encValue le (off + padTo off 8) k).length) v1 ++ rest :=
      drop_app2 (by simp)
    simp only [hdrop2]
    rw [decValue_encValue fuel le
      (off + padTo off 8 + (encValue le (off + padTo off 8) k).length) v1 rest
      hwf.2 (by omega)]
    simp only [Option.some.injEq, Prod.mk.injEq, List.length_append,
      List.length_replicate]
    exact ⟨trivial, by omega⟩
  | variant p =>
    simp only [wfValue] at hwf
    obtain ⟨htok, hwfp⟩ := hwf
    simp only [typeOK, Bool.and_eq_true, decide_eq_true_eq] at htok
    simp only [fuelV] at hfuel
    obtain ⟨f, rfl⟩ : ∃ f, fuel = f + 1 := ⟨fuel - 1, by omega⟩
    have hoff : off + ((sigOf (typeOfV p)).length
        :: (sigOf (typeOfV p) ++ [0])).length
        = off + 1 + (sigOf (typeOfV p)).length + 1 := by
      simp only [List.length_cons, List.length_append, List.length_nil]
      omega
    simp only [typeOfV, encValue, hoff, List.cons_append, List.append_assoc,
      List.nil_append, decValue]
    rw [if_neg (by simp only [List.length_append, List.length_cons]; omega)]
    rw [if_pos (by rw [List.drop_left]; rfl)]
    have hps := parseSigType_sigOf (typeOfV p) []
      ((sigOf (typeOfV p)).length + 1) maxDepth (by omega) htok.1.1 htok.1.2
    rw [List.append_nil] at hps
    rw [List.take_left, hps]
    have hdropv : List.drop ((sigOf (typeOfV p)).length + 1)
        (sigOf (typeOfV p)
          ++ 0 :: (encValue le (off + 1 + (sigOf (typeOfV p)).length + 1) p ++ rest))
        = encValue le (off + 1 + (sigOf (typeOfV p)).length + 1) p ++ rest := by
      rw [show sigOf (typeOfV p)
          ++ 0 :: (encValue le (off + 1 + (sigOf (typeOfV p)).length + 1) p ++ rest)
          = (sigOf (typeOfV p) ++ [0])
            ++ (encValue le (off + 1 + (sigOf (typeOfV p)).length + 1) p ++ rest) by
        simp]
      rw [List.drop_left' (by simp)]
    simp only [hdropv]
    rw [decValue_encValue f le (off + 1 + (sigOf (typeOfV p)).length + 1) p rest
      hwfp (by omega)]
    simp only [Option.some.injEq, Prod.mk.injEq, List.length_cons,
      List.length_append, List.length_nil]
    exact ⟨trivial, by omega⟩

theorem decSeq_encList (fuel : Nat) (le : Bool) (off : Nat)
    (vs : List DBusValue) (rest : List Nat) (hwf : wfList vs)
    (hfuel : fuelL vs < fuel) :
    decSeq fuel le (typeOfL vs) off (encList le off vs ++ rest)
      = some (vs, (encList le off vs).length) := by
  cases vs with
  | nil => simp [typeOfL, encList, decSeq]
  | cons v vs1 =>
    simp only [wfList] at hwf
    simp only [fuelL] at hfuel
    simp only [typeOfL, encList, List.append_assoc, decSeq]
    rw [decValue_encValue fuel le off v
      (encList le (off + (encValue le off v).length) vs1 ++ rest)
      hwf.1 (by omega)]
    simp only [List.drop_left]
    rw [decSeq_encList fuel le (off + (encValue le off v).length) vs1 rest
      hwf.2 (by omega)]
    simp [List.length_append]

theorem decElems_encList (fuel : Nat) (le : Bool) (off : Nat) (t : DBusType)
    (vs : List DBusValue) (hty : allTyped t vs) (hwf : wfList vs)
    (hfuel : fuelE vs < fuel) :
    decElems fuel le t off (encList le off vs) (encList le off vs).length
      = some vs := by
  cases vs with
  | nil => simp [encList, decElems]
  | cons v vs1 =>
    simp only [wfList] at hwf
    simp only [allTyped] at hty
    obtain ⟨hty1, hty2⟩ := hty
    subst hty1
    simp only [fuelE] at hfuel
    obtain ⟨f, rfl⟩ : ∃ f, fuel = f + 1 := ⟨fuel - 1, by omega⟩
    have hpos := fuelV_lt_encValue le off v hwf.1
    have henc : encList le off (v :: vs1)
        = encValue le off v
          ++ encList le (off + (encValue le off v).length) vs1 := rfl
    obtain ⟨m, hm⟩ : ∃ m, (encList le off (v :: vs1)).length = m + 1 :=
      ⟨(encList le off (v :: vs1)).length - 1, by
        rw [henc]; simp only [List.length_append]; omega⟩
    have hm2 : (encValue le off v).length
        + (encList le (off + (encValue le off v).length) vs1).length = m + 1 := by
      rw [henc] at hm
      simp only [List.length_append] at hm
      exact hm
    rw [hm, henc]
    simp only [decElems]
    rw [decValue_encValue f le off v _ hwf.1 (by omega)]
    simp only [List.drop_left]
    rw [if_neg (show ¬(encValue le off v).length = 0 by omega)]
    rw [if_neg (show ¬(Nat.succ m < (encValue le off v).length) by omega)]
    rw [show Nat.succ m - (encValue le off v).length
        = (encList le (off + (encValue le off v).length) vs1).length by omega]
    rw [decElems_encList f le (off + (encValue le off v).length) (typeOfV v) vs1
      hty2 hwf.2 (by omega)]

end

theorem msgTypeOfCode_msgTypeCode (t : MsgType) :
    msgTypeOfCode (msgTypeCode t) = some t := by
  cases t <;> rfl

/-- Folding header entries over an append processes the chunks in
sequence. -/
theorem foldFields_append (r : HFields) (a b : List DBusValue) :
    foldFields r (a ++ b) = match foldFields r a with
      | some r2 => foldFields r2 b
      | none => none := by
  induction a generalizing r with
  | nil => simp [foldFields]
  | cons v a1 ih =>
    simp only [List.cons_append, foldFields]
    cases applyField r v with
    | none => rfl
    | some r2 => simp [ih]

theorem foldFields_opt1 (r : HFields) (o : Option (List Nat))
    (rest : List DBusValue) :
    foldFields r (optField 1 (o.map DBusValue.objectPath) ++ rest)
      = foldFields ⟨o.or r.path, r.interface, r.member, r.errorName,
          r.replySerial, r.destination, r.sender, r.sig⟩ rest := by
  cases o <;> simp [optField, foldFields, applyField, asEntry, asPath, asStr, asU32, asSig, Option.or]

theorem foldFields_opt2 (r : HFields) (o : Option (List Nat))
    (rest : List DBusValue) :
    foldFields r (optField 2 (o.map DBusValue.string) ++ rest)
      = foldFields ⟨r.path, o.or r.interface, r.member, r.errorName,
          r.replySerial, r.destination, r.sender, r.sig⟩ rest := by
  cases o <;> simp [optField, foldFields, applyField, asEntry, asPath, asStr, asU32, asSig, Option.or]

theorem foldFields_opt3 (r : HFields) (o : Option (List Nat))
    (rest : List DBusValue) :
    foldFields r (optField 3 (o.map DBusValue.string) ++ rest)
      = foldFields ⟨r.path, r.interface, o.or r.member, r.errorName,
          r.replySerial, r.destination, r.sender, r.sig⟩ rest := by
  cases o <;> simp [optField, foldFields, applyField, asEntry, asPath, asStr, asU32, asSig, Option.or]

theorem foldFields_opt4 (r : HFields) (o : Option (List Nat))
    (rest : List DBusValue) :
    foldFields r (optField 4 (o.map DBusValue.string) ++ rest)
      = foldFields ⟨r.path, r.interface, r.member, o.or r.errorName,
          r.replySerial, r.destination, r.sender, r.sig⟩ rest := by
  cases o <;> simp [optField, foldFields, applyField, asEntry, asPath, asStr, asU32, asSig, Option.or]

theorem foldFields_opt5 (r : HFields) (o : Option Nat)
    (rest : List DBusValue) :
    foldFields r (optField 5 (o.map DBusValue.uint32) ++ rest)
      = foldFields ⟨r.path, r.interface, r.member, r.errorName,
          o.or r.replySerial, r.destination, r.sender, r.sig⟩ rest := by
  cases o <;> simp [optField, foldFields, applyField, asEntry, asPath, asStr, asU32, asSig, Option.or]

theorem foldFields_opt6 (r : HFields) (o : Option (List Nat))
    (rest : List DBusValue) :
    foldFields r (optField 6 (o.map DBusValue.string) ++ rest)
      = foldFields ⟨r.path, r.interface, r.member, r.errorName,
          r.replySerial, o.or r.destination, r.sender, r.sig⟩ rest := by
  cases o <;> simp [optField, foldFields, applyField, asEntry, asPath, asStr, asU32, asSig, Option.or]

theorem foldFields_opt7 (r : HFields) (o : Option (List Nat))
    (rest : List DBusValue) :
    foldFields r (optField 7 (o.map DBusValue.string) ++ rest)
      = foldFields ⟨r.path, r.interface, r.member, r.errorName,
          r.replySerial, r.destination, o.or r.sender, r.sig⟩ rest := by
  cases o <;> simp [optField, foldFields, applyField, asEntry, asPath, asStr, asU32, asSig, Option.or]

/-- Interpreting the encoded header-field entries of a message recovers its
optional header fields and body signature. -/
theorem foldFields_fieldsList (m : Message) :
    foldFields emptyHF (fieldsList m)
      = some ⟨m.path, m.interface, m.member, m.errorName, m.replySerial,
          m.destination, m.sender, typeOfL m.body⟩ := by
  rw [fieldsList, foldFields_opt1, foldFields_opt2, foldFields_opt3,
    foldFields_opt4, foldFields_opt5, foldFields_opt6, foldFields_opt7]
  simp [foldFields, applyField, asEntry, asSig, emptyHF, Option.or_none]

/-- Dropping the first four chunks of a five-chunk append. -/
theorem drop_app4 {a b c d rest : List Nat} {n : Nat}
    (h : a.length + b.length + c.length + d.length = n) :
    (a ++ (b ++ (c ++ (d ++ rest)))).drop n = rest := by
  rw [show a ++ (b ++ (c ++ (d ++ rest))) = (a ++ b ++ c ++ d) ++ rest by simp,
    List.drop_left' (by simp only [List.length_append]; omega)]

/-- Round-trip at the message level: decoding the encoding of a well-formed
message (with any trailing bytes) returns the message and consumes exactly
its encoding. -/
theorem decodeMessage_encodeMessage (m : Message) (rest : List Nat)
    (hwf : wfMessage m) :
    decodeMessage (encodeMessage m ++ rest)
      = .ok m (encodeMessage m).length := by
  obtain ⟨hver, hser, hwfh, hwfb, hsz⟩ := hwf
  simp only [headerFields] at hwfh hsz
  have hFub := encValue_le_sizeUB true 12 (DBusValue.array (DBusType.struct [DBusType.byte, DBusType.variant]) (fieldsList m))
  have h1F := fuelV_lt_encValue true 12 (DBusValue.array (DBusType.struct [DBusType.byte, DBusType.variant]) (fieldsList m)) hwfh
  have hBub := encList_le_sizeUBL true (12 + (encValue true 12 (DBusValue.array (DBusType.struct [DBusType.byte, DBusType.variant]) (fieldsList m))).length + (padTo (12 + (encValue true 12 (DBusValue.array (DBusType.struct [DBusType.byte, DBusType.variant]) (fieldsList m))).length) 8)) m.body
  have hfB := fuelL_le_encList true (12 + (encValue true 12 (DBusValue.array (DBusType.struct [DBusType.byte, DBusType.variant]) (fieldsList m))).length + (padTo (12 + (encValue true 12 (DBusValue.array (DBusType.struct [DBusType.byte, DBusType.variant]) (fieldsList m))).length) 8)) m.body hwfb
  have hmax : maxMessageSize = 33554432 := rfl
  have hP0 : (padTo (12 + (encValue true 12 (DBusValue.array (DBusType.struct [DBusType.byte, DBusType.variant]) (fieldsList m))).length) 8) = (8 - (12 + (encValue true 12 (DBusValue.array (DBusType.struct [DBusType.byte, DBusType.variant]) (fieldsList m))).length) % 8) % 8 := rfl
  have hFexp : (encValue true 12 (DBusValue.array (DBusType.struct [DBusType.byte, DBusType.variant]) (fieldsList m))) = encNat true 4 (encList true 16 (fieldsList m)).length ++ (encList true 16 (fieldsList m)) := by
    simp [encValue, alignOf, padTo]
  have hFlen : (encValue true 12 (DBusValue.array (DBusType.struct [DBusType.byte, DBusType.variant]) (fieldsList m))).length = 4 + (encList true 16 (fieldsList m)).length := by
    rw [hFexp]
    simp [encNat_length]
  have hpadeq : padTo (16 + (encList true 16 (fieldsList m)).length) 8 = (padTo (12 + (encValue true 12 (DBusValue.array (DBusType.struct [DBusType.byte, DBusType.variant]) (fieldsList m))).length) 8) := by
    rw [show 16 + (encList true 16 (fieldsList m)).length = 12 + (encValue true 12 (DBusValue.array (DBusType.struct [DBusType.byte, DBusType.variant]) (fieldsList m))).length by omega]
  have hplt : padTo (16 + (encList true 16 (fieldsList m)).length) 8 < 8 := padTo_lt _ 8 (by omega)
  have h8 : (encNat true 4 (encList true (12 + (encValue true 12 (DBusValue.array (DBusType.struct [DBusType.byte, DBusType.variant]) (fieldsList m))).length + (padTo (12 + (encValue true 12 (DBusValue.array (DBusType.struct [DBusType.byte, DBusType.variant]) (fieldsList m))).length) 8)) m.body).length).length + (encNat true 4 m.serial).length = 8 := by
    simp [encNat_length]
  simp only [encodeMessage, headerFields, List.cons_append, List.append_assoc,
    List.nil_append]
  rw [Nat.mod_eq_of_lt hver]
  simp only [decodeMessage]
  rw [if_neg (by
    simp only [List.length_cons, List.length_append, List.length_replicate,
      encNat_length]
    omega)]
  rw [if_pos trivial]
  simp only [decodeWith]
  rw [show (108 :: msgTypeCode m.msgType :: m.version :: 0 :: ((encNat true 4 (encList true (12 + (encValue true 12 (DBusValue.array (DBusType.struct [DBusType.byte, DBusType.variant]) (fieldsList m))).length + (padTo (12 + (encValue true 12 (DBusValue.array (DBusType.struct [DBusType.byte, DBusType.variant]) (fieldsList m))).length) 8)) m.body).length) ++ ((encNat true 4 m.serial) ++ ((encValue true 12 (DBusValue.array (DBusType.struct [DBusType.byte, DBusType.variant]) (fieldsList m))) ++ (List.replicate (padTo (12 + (encValue true 12 (DBusValue.array (DBusType.struct [DBusType.byte, DBusType.variant]) (fieldsList m))).length) 8) 0 ++ ((encList true (12 + (encValue true 12 (DBusValue.array (DBusType.struct [DBusType.byte, DBusType.variant]) (fieldsList m))).length + (padTo (12 + (encValue true 12 (DBusValue.array (DBusType.struct [DBusType.byte, DBusType.variant]) (fieldsList m))).length) 8)) m.body) ++ rest)))))).length
      = 12 + (encValue true 12 (DBusValue.array (DBusType.struct [DBusType.byte, DBusType.variant]) (fieldsList m))).length + (padTo (12 + (encValue true 12 (DBusValue.array (DBusType.struct [DBusType.byte, DBusType.variant]) (fieldsList m))).length) 8) + (encList true (12 + (encValue true 12 (DBusValue.array (DBusType.struct [DBusType.byte, DBusType.variant]) (fieldsList m))).length + (padTo (12 + (encValue true 12 (DBusValue.array (DBusType.struct [DBusType.byte, DBusType.variant]) (fieldsList m))).length) 8)) m.body).length + rest.length by
    simp only [List.length_cons, List.length_append, List.length_replicate,
      encNat_length]
    omega]
  rw [decNat_encNat true 4 (encList true (12 + (encValue true 12 (DBusValue.array (DBusType.struct [DBusType.byte, DBusType.variant]) (fieldsList m))).length + (padTo (12 + (encValue true 12 (DBusValue.array (DBusType.struct [DBusType.byte, DBusType.variant]) (fieldsList m))).length) 8)) m.body).length
    ((encNat true 4 m.serial) ++ ((encValue true 12 (DBusValue.array (DBusType.struct [DBusType.byte, DBusType.variant]) (fieldsList m))) ++ (List.replicate (padTo (12 + (encValue true 12 (DBusValue.array (DBusType.struct [DBusType.byte, DBusType.variant]) (fieldsList m))).length) 8) 0 ++ ((encList true (12 + (encValue true 12 (DBusValue.array (DBusType.struct [DBusType.byte, DBusType.variant]) (fieldsList m))).length + (padTo (12 + (encValue true 12 (DBusValue.array (DBusType.struct [DBusType.byte, DBusType.variant]) (fieldsList m))).length) 8)) m.body) ++ rest)))) (by omega)]
  rw [show List.drop 4 ((encNat true 4 (encList true (12 + (encValue true 12 (DBusValue.array (DBusType.struct [DBusType.byte, DBusType.variant]) (fieldsList m))).length + (padTo (12 + (encValue true 12 (DBusValue.array (DBusType.struct [DBusType.byte, DBusType.variant]) (fieldsList m))).length) 8)) m.body).length) ++ ((encNat true 4 m.serial) ++ ((encValue true 12 (DBusValue.array (DBusType.struct [DBusType.byte, DBusType.variant]) (fieldsList m))) ++ (List.replicate (padTo (12 + (encValue true 12 (DBusValue.array (DBusType.struct [DBusType.byte, DBusType.variant]) (fieldsList m))).length) 8) 0 ++ ((encList true (12 + (encValue true 12 (DBusValue.array (DBusType.struct [DBusType.byte, DBusType.variant]) (fieldsList m))).length + (padTo (12 + (encValue true 12 (DBusValue.array (DBusType.struct [DBusType.byte, DBusType.variant]) (fieldsList m))).length) 8)) m.body) ++ rest))))) = (encNat true 4 m.serial) ++ ((encValue true 12 (DBusValue.array (DBusType.struct [DBusType.byte, DBusType.variant]) (fieldsList m))) ++ (List.replicate (padTo (12 + (encValue true 12 (DBusValue.array (DBusType.struct [DBusType.byte, DBusType.variant]) (fieldsList m))).length) 8) 0 ++ ((encList true (12 + (encValue true 12 (DBusValue.array (DBusType.struct [DBusType.byte, DBusType.variant]) (fieldsList m))).length + (padTo (12 + (encValue true 12 (DBusValue.array (DBusType.struct [DBusType.byte, DBusType.variant]) (fieldsList m))).length) 8)) m.body) ++ rest))) from
    List.drop_left' (encNat_length true 4 (encList true (12 + (encValue true 12 (DBusValue.array (DBusType.struct [DBusType.byte, DBusType.variant]) (fieldsList m))).length + (padTo (12 + (encValue true 12 (DBusValue.array (DBusType.struct [DBusType.byte, DBusType.variant]) (fieldsList m))).length) 8)) m.body).length)]
  rw [decNat_encNat true 4 m.serial ((encValue true 12 (DBusValue.array (DBusType.struct [DBusType.byte, DBusType.variant]) (fieldsList m))) ++ (List.replicate (padTo (12 + (encValue true 12 (DBusValue.array (DBusType.struct [DBusType.byte, DBusType.variant]) (fieldsList m))).length) 8) 0 ++ ((encList true (12 + (encValue true 12 (DBusValue.array (DBusType.struct [DBusType.byte, DBusType.variant]) (fieldsList m))).length + (padTo (12 + (encValue true 12 (DBusValue.array (DBusType.struct [DBusType.byte, DBusType.variant]) (fieldsList m))).length) 8)) m.body) ++ rest))) hser]
  rw [show List.drop 8 ((encNat true 4 (encList true (12 + (encValue true 12 (DBusValue.array (DBusType.struct [DBusType.byte, DBusType.variant]) (fieldsList m))).length + (padTo (12 + (encValue true 12 (DBusValue.array (DBusType.struct [DBusType.byte, DBusType.variant]) (fieldsList m))).length) 8)) m.body).length) ++ ((encNat true 4 m.serial) ++ ((encValue true 12 (DBusValue.array (DBusType.struct [DBusType.byte, DBusType.variant]) (fieldsList m))) ++ (List.replicate (padTo (12 + (encValue true 12 (DBusValue.array (DBusType.struct [DBusType.byte, DBusType.variant]) (fieldsList m))).length) 8) 0 ++ ((encList true (12 + (encValue true 12 (DBusValue.array (DBusType.struct [DBusType.byte, DBusType.variant]) (fieldsList m))).length + (padTo (12 + (encValue true 12 (DBusValue.array (DBusType.struct [DBusType.byte, DBusType.variant]) (fieldsList m))).length) 8)) m.body) ++ rest))))) = ((encValue true 12 (DBusValue.array (DBusType.struct [DBusType.byte, DBusType.variant]) (fieldsList m))) ++ (List.replicate (padTo (12 + (encValue true 12 (DBusValue.array (DBusType.struct [DBusType.byte, DBusType.variant]) (fieldsList m))).length) 8) 0 ++ ((encList true (12 + (encValue true 12 (DBusValue.array (DBusType.struct [DBusType.byte, DBusType.variant]) (fieldsList m))).length + (padTo (12 + (encValue true 12 (DBusValue.array (DBusType.struct [DBusType.byte, DBusType.variant]) (fieldsList m))).length) 8)) m.body) ++ rest))) from drop_app2 h8]
  rw [show decNat true 4 ((encValue true 12 (DBusValue.array (DBusType.struct [DBusType.byte, DBusType.variant]) (fieldsList m))) ++ (List.replicate (padTo (12 + (encValue true 12 (DBusValue.array (DBusType.struct [DBusType.byte, DBusType.variant]) (fieldsList m))).length) 8) 0 ++ ((encList true (12 + (encValue true 12 (DBusValue.array (DBusType.struct [DBusType.byte, DBusType.variant]) (fieldsList m))).length + (padTo (12 + (encValue true 12 (DBusValue.array (DBusType.struct [DBusType.byte, DBusType.variant]) (fieldsList m))).length) 8)) m.body) ++ rest))) = (encList true 16 (fieldsList m)).length by
    rw [hFexp, List.append_assoc]
    exact decNat_encNat true 4 (encList true 16 (fieldsList m)).length _ (by omega)]
  rw [if_neg (by omega)]
  rw [if_neg (by omega)]
  rw [msgTypeOfCode_msgTypeCode]
  rw [show List.drop 12 (108 :: msgTypeCode m.msgType :: m.version :: 0 :: ((encNat true 4 (encList true (12 + (encValue true 12 (DBusValue.array (DBusType.struct [DBusType.byte, DBusType.variant]) (fieldsList m))).length + (padTo (12 + (encValue true 12 (DBusValue.array (DBusType.struct [DBusType.byte, DBusType.variant]) (fieldsList m))).length) 8)) m.body).length) ++ ((encNat true 4 m.serial) ++ ((encValue true 12 (DBusValue.array (DBusType.struct [DBusType.byte, DBusType.variant]) (fieldsList m))) ++ (List.replicate (padTo (12 + (encValue true 12 (DBusValue.array (DBusType.struct [DBusType.byte, DBusType.variant]) (fieldsList m))).length) 8) 0 ++ ((encList true (12 + (encValue true 12 (DBusValue.array (DBusType.struct [DBusType.byte, DBusType.variant]) (fieldsList m))).length + (padTo (12 + (encValue true 12 (DBusValue.array (DBusType.struct [DBusType.byte, DBusType.variant]) (fieldsList m))).length) 8)) m.body) ++ rest)))))) = List.drop 8 ((encNat true 4 (encList true (12 + (encValue true 12 (DBusValue.array (DBusType.struct [DBusType.byte, DBusType.variant]) (fieldsList m))).length + (padTo (12 + (encValue true 12 (DBusValue.array (DBusType.struct [DBusType.byte, DBusType.variant]) (fieldsList m))).length) 8)) m.body).length) ++ ((encNat true 4 m.serial) ++ ((encValue true 12 (DBusValue.array (DBusType.struct [DBusType.byte, DBusType.variant]) (fieldsList m))) ++ (List.replicate (padTo (12 + (encValue true 12 (DBusValue.array (DBusType.struct [DBusType.byte, DBusType.variant]) (fieldsList m))).length) 8) 0 ++ ((encList true (12 + (encValue true 12 (DBusValue.array (DBusType.struct [DBusType.byte, DBusType.variant]) (fieldsList m))).length + (padTo (12 + (encValue true 12 (DBusValue.array (DBusType.struct [DBusType.byte, DBusType.variant]) (fieldsList m))).length) 8)) m.body) ++ rest))))) from rfl,
    show List.drop 8 ((encNat true 4 (encList true (12 + (encValue true 12 (DBusValue.array (DBusType.struct [DBusType.byte, DBusType.variant]) (fieldsList m))).length + (padTo (12 + (encValue true 12 (DBusValue.array (DBusType.struct [DBusType.byte, DBusType.variant]) (fieldsList m))).length) 8)) m.body).length) ++ ((encNat true 4 m.serial) ++ ((encValue true 12 (DBusValue.array (DBusType.struct [DBusType.byte, DBusType.variant]) (fieldsList m))) ++ (List.replicate (padTo (12 + (encValue true 12 (DBusValue.array (DBusType.struct [DBusType.byte, DBusType.variant]) (fieldsList m))).length) 8) 0 ++ ((encList true (12 + (encValue true 12 (DBusValue.array (DBusType.struct [DBusType.byte, DBusType.variant]) (fieldsList m))).length + (padTo (12 + (encValue true 12 (DBusValue.array (DBusType.struct [DBusType.byte, DBusType.variant]) (fieldsList m))).length) 8)) m.body) ++ rest))))) = ((encValue true 12 (DBusValue.array (DBusType.struct [DBusType.byte, DBusType.variant]) (fieldsList m))) ++ (List.replicate (padTo (12 + (encValue true 12 (DBusValue.array (DBusType.struct [DBusType.byte, DBusType.variant]) (fieldsList m))).length) 8) 0 ++ ((encList true (12 + (encValue true 12 (DBusValue.array (DBusType.struct [DBusType.byte, DBusType.variant]) (fieldsList m))).length + (padTo (12 + (encValue true 12 (DBusValue.array (DBusType.struct [DBusType.byte, DBusType.variant]) (fieldsList m))).length) 8)) m.body) ++ rest))) from drop_app2 h8]
  have hdecF := decValue_encValue (12 + (encValue true 12 (DBusValue.array (DBusType.struct [DBusType.byte, DBusType.variant]) (fieldsList m))).length + (padTo (12 + (encValue true 12 (DBusValue.array (DBusType.struct [DBusType.byte, DBusType.variant]) (fieldsList m))).length) 8) + (encList true (12 + (encValue true 12 (DBusValue.array (DBusType.struct [DBusType.byte, DBusType.variant]) (fieldsList m))).length + (padTo (12 + (encValue true 12 (DBusValue.array (DBusType.struct [DBusType.byte, DBusType.variant]) (fieldsList m))).length) 8)) m.body).length + rest.length + 1) true 12 (DBusValue.array (DBusType.struct [DBusType.byte, DBusType.variant]) (fieldsList m))
    (List.replicate (padTo (12 + (encValue true 12 (DBusValue.array (DBusType.struct [DBusType.byte, DBusType.variant]) (fieldsList m))).length) 8) 0 ++ ((encList true (12 + (encValue true 12 (DBusValue.array (DBusType.struct [DBusType.byte, DBusType.variant]) (fieldsList m))).length + (padTo (12 + (encValue true 12 (DBusValue.array (DBusType.struct [DBusType.byte, DBusType.variant]) (fieldsList m))).length) 8)) m.body) ++ rest)) hwfh (by omega)
  rw [show typeOfV (DBusValue.array (DBusType.struct [DBusType.byte, DBusType.variant]) (fieldsList m)) = DBusType.array (DBusType.struct [DBusType.byte, DBusType.variant]) from rfl] at hdecF
  rw [hdecF]
  simp only [foldFields_fieldsList]
  have hsplitlist : (108 :: msgTypeCode m.msgType :: m.version :: 0 :: ((encNat true 4 (encList true (12 + (encValue true 12 (DBusValue.array (DBusType.struct [DBusType.byte, DBusType.variant]) (fieldsList m))).length + (padTo (12 + (encValue true 12 (DBusValue.array (DBusType.struct [DBusType.byte, DBusType.variant]) (fieldsList m))).length) 8)) m.body).length) ++ ((encNat true 4 m.serial) ++ ((encValue true 12 (DBusValue.array (DBusType.struct [DBusType.byte, DBusType.variant]) (fieldsList m))) ++ (List.replicate (padTo (12 + (encValue true 12 (DBusValue.array (DBusType.struct [DBusType.byte, DBusType.variant]) (fieldsList m))).length) 8) 0 ++ ((encList true (12 + (encValue true 12 (DBusValue.array (DBusType.struct [DBusType.byte, DBusType.variant]) (fieldsList m))).length + (padTo (12 + (encValue true 12 (DBusValue.array (DBusType.struct [DBusType.byte, DBusType.variant]) (fieldsList m))).length) 8)) m.body) ++ rest)))))) = ([108, msgTypeCode m.msgType, m.version, 0] ++ ((encNat true 4 (encList true (12 + (encValue true 12 (DBusValue.array (DBusType.struct [DBusType.byte, DBusType.variant]) (fieldsList m))).length + (padTo (12 + (encValue true 12 (DBusValue.array (DBusType.struct [DBusType.byte, DBusType.variant]) (fieldsList m))).length) 8)) m.body).length) ++ ((encNat true 4 m.serial) ++ ((encValue true 12 (DBusValue.array (DBusType.struct [DBusType.byte, DBusType.variant]) (fieldsList m))) ++ List.replicate (padTo (12 + (encValue true 12 (DBusValue.array (DBusType.struct [DBusType.byte, DBusType.variant]) (fieldsList m))).length) 8) 0)))) ++ ((encList true (12 + (encValue true 12 (DBusValue.array (DBusType.struct [DBusType.byte, DBusType.variant]) (fieldsList m))).length + (padTo (12 + (encValue true 12 (DBusValue.array (DBusType.struct [DBusType.byte, DBusType.variant]) (fieldsList m))).length) 8)) m.body) ++ rest) := by
    simp
  have hdropB : List.drop (12 + (encValue true 12 (DBusValue.array (DBusType.struct [DBusType.byte, DBusType.variant]) (fieldsList m))).length + (padTo (12 + (encValue true 12 (DBusValue.array (DBusType.struct [DBusType.byte, DBusType.variant]) (fieldsList m))).length) 8)) (108 :: msgTypeCode m.msgType :: m.version :: 0 :: ((encNat true 4 (encList true (12 + (encValue true 12 (DBusValue.array (DBusType.struct [DBusType.byte, DBusType.variant]) (fieldsList m))).length + (padTo (12 + (encValue true 12 (DBusValue.array (DBusType.struct [DBusType.byte, DBusType.variant]) (fieldsList m))).length) 8)) m.body).length) ++ ((encNat true 4 m.serial) ++ ((encValue true 12 (DBusValue.array (DBusType.struct [DBusType.byte, DBusType.variant]) (fieldsList m))) ++ (List.replicate (padTo (12 + (encValue true 12 (DBusValue.array (DBusType.struct [DBusType.byte, DBusType.variant]) (fieldsList m))).length) 8) 0 ++ ((encList true (12 + (encValue true 12 (DBusValue.array (DBusType.struct [DBusType.byte, DBusType.variant]) (fieldsList m))).length + (padTo (12 + (encValue true 12 (DBusValue.array (DBusType.struct [DBusType.byte, DBusType.variant]) (fieldsList m))).length) 8)) m.body) ++ rest)))))) = (encList true (12 + (encValue true 12 (DBusValue.array (DBusType.struct [DBusType.byte, DBusType.variant]) (fieldsList m))).length + (padTo (12 + (encValue true 12 (DBusValue.array (DBusType.struct [DBusType.byte, DBusType.variant]) (fieldsList m))).length) 8)) m.body) ++ rest := by
    rw [hsplitlist, List.drop_left' (by
      simp only [List.length_append, List.length_cons, List.length_nil,
        List.length_replicate, encNat_length]
      omega)]
  rw [hdropB, List.take_left]
  have hdecB := decSeq_encList (12 + (encValue true 12 (DBusValue.array (DBusType.struct [DBusType.byte, DBusType.variant]) (fieldsList m))).length + (padTo (12 + (encValue true 12 (DBusValue.array (DBusType.struct [DBusType.byte, DBusType.variant]) (fieldsList m))).length) 8) + (encList true (12 + (encValue true 12 (DBusValue.array (DBusType.struct [DBusType.byte, DBusType.variant]) (fieldsList m))).length + (padTo (12 + (encValue true 12 (DBusValue.array (DBusType.struct [DBusType.byte, DBusType.variant]) (fieldsList m))).length) 8)) m.body).length + rest.length + 1) true (12 + (encValue true 12 (DBusValue.array (DBusType.struct [DBusType.byte, DBusType.variant]) (fieldsList m))).length + (padTo (12 + (encValue true 12 (DBusValue.array (DBusType.struct [DBusType.byte, DBusType.variant]) (fieldsList m))).length) 8)) m.body [] hwfb (by omega)
  rw [List.append_nil] at hdecB
  simp only [hdecB]
  rw [if_pos trivial]
  simp only [DecodeResult.ok.injEq]
  refine ⟨trivial, ?_⟩
  simp only [List.length_cons, List.length_append, List.length_nil,
    List.length_replicate, encNat_length]
  omega

end Wire

/-- C1: the address passed to `Bus::for_address` is the `--address` value
whenever given, regardless of the configuration file's `listen`; only when
`--address` is absent is the configuration `listen` used (so with both
absent, `for_address` receives no address). -/
theorem address_flag_precedence (args : Busd.Args) (env : Busd.Env)
    (config : Busd.Config) (h : env.configResult = .ok config) :
    Busd.Event.forAddress (Busd.resolvedAddress args config) ∈ (Busd.mainRun args env).1
    ∧ (∀ a, args.address = some a → Busd.resolvedAddress args config = some a)
    ∧ (args.address = none → Busd.resolvedAddress args config = config.listen) := by
  refine ⟨?_, ?_, ?_⟩
  · unfold Busd.mainRun
    rw [h]
    cases hb : env.busResult with
    | error e => simp
    | ok bus =>
      simp only []
      split
      · simp
      · split
        · simp
        · simp
  · intro a ha
    simp [Busd.resolvedAddress, ha]
  · intro ha
    simp [Busd.resolvedAddress, ha]

/-- Witness for `address_flag_precedence` at concrete arguments. -/
theorem address_flag_precedence_witness :
    Busd.Event.forAddress (Busd.resolvedAddress
        ⟨some "tcp:host=1", none, none, false, none, false, false⟩ ⟨some "unix:path=x"⟩)
      ∈ (Busd.mainRun ⟨some "tcp:host=1", none, none, false, none, false, false⟩
        ⟨.ok ⟨some "unix:path=x"⟩, .ok ⟨"tcp:host=1"⟩, true, true, .sigint, .ok ()⟩).1 := by
  exact (address_flag_precedence
    ⟨some "tcp:host=1", none, none, false, none, false, false⟩
    ⟨.ok ⟨some "unix:path=x"⟩, .ok ⟨"tcp:host=1"⟩, true, true, .sigint, .ok ()⟩
    ⟨some "unix:path=x"⟩ rfl).1

/-- C8: the configuration path is `system.conf` when `--system` is set (even
with `--config` given), else the `--config` path when given, else
`session.conf`; the `--session` flag never influences the choice. -/
theorem config_path_selection (args : Busd.Args) :
    (args.system = true → Busd.configPath args = "/usr/share/dbus-1/system.conf")
    ∧ (args.system = false → ∀ p, args.config = some p → Busd.configPath args = p)
    ∧ (args.system = false → args.config = none →
        Busd.configPath args = "/usr/share/dbus-1/session.conf")
    ∧ (∀ b, Busd.configPath { args with session := b } = Busd.configPath args) := by
  refine ⟨?_, ?_, ?_, ?_⟩
  · intro hs; simp [Busd.configPath, hs]
  · intro hs p hc; simp [Busd.configPath, hs, hc]
  · intro hs hc; simp [Busd.configPath, hs, hc]
  · intro b; simp [Busd.configPath]

/-- Witness for `config_path_selection` at concrete arguments. -/
theorem config_path_selection_witness :
    Busd.configPath ⟨none, none, some "/tmp/my.conf", false, none, false, true⟩
      = "/usr/share/dbus-1/system.conf" :=
  (config_path_selection ⟨none, none, some "/tmp/my.conf", false, none, false, true⟩).1 rfl

/-- C2: whenever `--ready-fd` is given and bus creation succeeded, the
program writes exactly the bytes `READY=1\n` to that descriptor and then
closes it (the close happens even if the write fails, since the `File` is
dropped either way). -/
theorem ready_fd_write_and_close (args : Busd.Args) (env : Busd.Env)
    (config : Busd.Config) (bus : Busd.Bus) (fd : Int)
    (hc : env.configResult = .ok config) (hb : env.busResult = .ok bus)
    (hfd : args.ready_fd = some fd) :
    ∃ rest, (Busd.mainRun args env).1 =
      [Busd.Event.readConfigFile (Busd.configPath args),
       Busd.Event.forAddress (Busd.resolvedAddress args config),
       Busd.Event.readyWrite fd Busd.readyBytes,
       Busd.Event.readyClose fd] ++ rest :=
  Busd.mainRun_ready_shape args env config bus fd hc hb hfd

/-- Witness for `ready_fd_write_and_close` at concrete input. -/
theorem ready_fd_write_and_close_witness :
    ∃ rest, (Busd.mainRun ⟨none, none, none, false, some 3, false, false⟩
        ⟨.ok ⟨none⟩, .ok ⟨"unix:path=a"⟩, true, true, .sigint, .ok ()⟩).1 =
      [Busd.Event.readConfigFile (Busd.configPath ⟨none, none, none, false, some 3, false, false⟩),
       Busd.Event.forAddress (Busd.resolvedAddress ⟨none, none, none, false, some 3, false, false⟩ ⟨none⟩),
       Busd.Event.readyWrite 3 Busd.readyBytes,
       Busd.Event.readyClose 3] ++ rest :=
  ready_fd_write_and_close ⟨none, none, none, false, some 3, false, false⟩
    ⟨.ok ⟨none⟩, .ok ⟨"unix:path=a"⟩, true, true, .sigint, .ok ()⟩
    ⟨none⟩ ⟨"unix:path=a"⟩ 3 rfl rfl rfl

/-- C3: the readiness token is only ever written after `Bus::for_address`
has returned successfully: any `readyWrite` event happens in the part of the
trace after the (successful) `forAddress` event. -/
theorem ready_write_only_after_bus (args : Busd.Args) (env : Busd.Env)
    (fd : Int) (bs : List Nat)
    (h : Busd.Event.readyWrite fd bs ∈ (Busd.mainRun args env).1) :
    ∃ config bus rest, env.configResult = .ok config ∧ env.busResult = .ok bus ∧
      (Busd.mainRun args env).1 =
        Busd.Event.readConfigFile (Busd.configPath args)
          :: Busd.Event.forAddress (Busd.resolvedAddress args config) :: rest ∧
      Busd.Event.readyWrite fd bs ∈ rest := by
  cases hc : env.configResult with
  | error e =>
    exfalso
    simp [Busd.mainRun, hc] at h
  | ok config =>
    cases hb : env.busResult with
    | error e =>
      exfalso
      simp [Busd.mainRun, hc, hb] at h
    | ok bus =>
      refine ⟨config, bus, ?_⟩
      cases hfd : args.ready_fd with
      | none => exact absurd h (Busd.mainRun_no_ready args env hfd fd bs)
      | some fd' =>
        obtain ⟨rest0, hshape⟩ :=
          Busd.mainRun_ready_shape args env config bus fd' hc hb hfd
        refine ⟨Busd.Event.readyWrite fd' Busd.readyBytes
            :: Busd.Event.readyClose fd' :: rest0, rfl, rfl, hshape, ?_⟩
        rw [hshape] at h
        simp only [List.cons_append, List.nil_append, List.mem_cons] at h ⊢
        rcases h with h | h | h | h | h
        · exact absurd h (by simp)
        · exact absurd h (by simp)
        · exact Or.inl h
        · exact absurd h (by simp)
        · exact Or.inr (Or.inr h)

/-- Witness for `ready_write_only_after_bus` at concrete input. -/
theorem ready_write_only_after_bus_witness :
    ∃ config bus rest,
      (Busd.Env.mk (.ok ⟨none⟩) (.ok ⟨"unix:path=b"⟩) true true .sigint (.ok ())).configResult
          = .ok config ∧
      (Busd.Env.mk (.ok ⟨none⟩) (.ok ⟨"unix:path=b"⟩) true true .sigint (.ok ())).busResult
          = .ok bus ∧
      (Busd.mainRun ⟨none, none, none, false, some 4, false, false⟩
          ⟨.ok ⟨none⟩, .ok ⟨"unix:path=b"⟩, true, true, .sigint, .ok ()⟩).1 =
        Busd.Event.readConfigFile (Busd.configPath ⟨none, none, none, false, some 4, false, false⟩)
          :: Busd.Event.forAddress
            (Busd.resolvedAddress ⟨none, none, none, false, some 4, false, false⟩ config) :: rest ∧
      Busd.Event.readyWrite 4 Busd.readyBytes ∈ rest :=
  ready_write_only_after_bus ⟨none, none, none, false, some 4, false, false⟩
    ⟨.ok ⟨none⟩, .ok ⟨"unix:path=b"⟩, true, true, .sigint, .ok ()⟩ 4 Busd.readyBytes
    (by simp [Busd.mainRun])

/-- C4: whenever `--command` is given (and the run reaches the `select!`
phase), `run_command` spawns `sh -c <command>` with the environment variable
`DBUS_SESSION_BUS_ADDRESS` set to the bus's address string, and the spawn
appears in the trace. -/
theorem command_spawned (args : Busd.Args) (env : Busd.Env)
    (config : Busd.Config) (bus : Busd.Bus) (cmd : String)
    (hc : env.configResult = .ok config) (hb : env.busResult = .ok bus)
    (hw : env.readyWriteOk = true) (hs : env.signalOk = true)
    (hcmd : args.command = some cmd) :
    Busd.run_command args.command bus.address
        = .runs "sh" ["-c", cmd] "DBUS_SESSION_BUS_ADDRESS" bus.address
    ∧ Busd.Event.spawnChild "sh" ["-c", cmd] "DBUS_SESSION_BUS_ADDRESS" bus.address
        ∈ (Busd.mainRun args env).1 := by
  constructor
  · rw [hcmd]; rfl
  · rw [Busd.mainRun_reach args env config bus hc hb hw hs]
    simp [hcmd, Busd.run_command]

/-- Witness for `command_spawned` at concrete input. -/
theorem command_spawned_witness :
    Busd.run_command (Busd.Args.mk none (some "true") none false none false false).command
        (Busd.Bus.mk "unix:path=c").address
        = .runs "sh" ["-c", "true"] "DBUS_SESSION_BUS_ADDRESS" "unix:path=c"
    ∧ Busd.Event.spawnChild "sh" ["-c", "true"] "DBUS_SESSION_BUS_ADDRESS" "unix:path=c"
        ∈ (Busd.mainRun ⟨none, some "true", none, false, none, false, false⟩
          ⟨.ok ⟨none⟩, .ok ⟨"unix:path=c"⟩, true, true, .sigint, .ok ()⟩).1 :=
  command_spawned ⟨none, some "true", none, false, none, false, false⟩
    ⟨.ok ⟨none⟩, .ok ⟨"unix:path=c"⟩, true, true, .sigint, .ok ()⟩
    ⟨none⟩ ⟨"unix:path=c"⟩ "true" rfl rfl rfl rfl rfl

/-- C5: on every shutdown path after the bus was created — SIGINT,
`bus.run()` resolving with `Ok` or an error, or the command future
completing with `Ok` or an error — the `select!` resolves and `cleanup` is
called before `main` returns (only the cleanup-failure log may follow). -/
theorem cleanup_on_every_shutdown_path (args : Busd.Args) (env : Busd.Env)
    (config : Busd.Config) (bus : Busd.Bus)
    (hc : env.configResult = .ok config) (hb : env.busResult = .ok bus)
    (hw : env.readyWriteOk = true) (hs : env.signalOk = true) :
    ∃ pre, (Busd.mainRun args env).1
        = pre ++ [Busd.Event.selectDone env.selectOutcome, Busd.Event.cleanup]
          ++ Busd.cleanupLog env.cleanupResult
      ∧ (Busd.mainRun args env).2 = .ok () := by
  rw [Busd.mainRun_reach args env config bus hc hb hw hs]
  refine ⟨[Busd.Event.readConfigFile (Busd.configPath args),
      Busd.Event.forAddress (Busd.resolvedAddress args config)]
      ++ (match args.ready_fd with
          | some fd => [Busd.Event.readyWrite fd Busd.readyBytes, Busd.Event.readyClose fd]
          | none => [])
      ++ (if args.print_address = true then [Busd.Event.printAddress bus.address] else [])
      ++ (match Busd.run_command args.command bus.address with
          | .pending => []
          | .runs p a k v => [Busd.Event.spawnChild p a k v]), ?_, rfl⟩
  simp

/-- Witness for `cleanup_on_every_shutdown_path` at concrete input. -/
theorem cleanup_on_every_shutdown_path_witness :
    ∃ pre, (Busd.mainRun ⟨none, none, none, false, none, false, false⟩
        ⟨.ok ⟨none⟩, .ok ⟨"unix:path=d"⟩, true, true, .busRun (.error "boom"), .ok ()⟩).1
        = pre ++ [Busd.Event.selectDone (.busRun (.error "boom")), Busd.Event.cleanup]
          ++ Busd.cleanupLog (Except.ok ())
      ∧ (Busd.mainRun ⟨none, none, none, false, none, false, false⟩
        ⟨.ok ⟨none⟩, .ok ⟨"unix:path=d"⟩, true, true, .busRun (.error "boom"), .ok ()⟩).2
        = .ok () :=
  cleanup_on_every_shutdown_path ⟨none, none, none, false, none, false, false⟩
    ⟨.ok ⟨none⟩, .ok ⟨"unix:path=d"⟩, true, true, .busRun (.error "boom"), .ok ()⟩
    ⟨none⟩ ⟨"unix:path=d"⟩ rfl rfl rfl rfl

/-- C6: when SIGINT is the branch that resolves the `select!`, the program
stops driving `bus.run()` (the only `selectDone` event is the SIGINT one,
and nothing but cleanup follows it) and calls `bus.cleanup()`. -/
theorem sigint_stops_and_cleans_up (args : Busd.Args) (env : Busd.Env)
    (config : Busd.Config) (bus : Busd.Bus)
    (hc : env.configResult = .ok config) (hb : env.busResult = .ok bus)
    (hw : env.readyWriteOk = true) (hs : env.signalOk = true)
    (hsig : env.selectOutcome = .sigint) :
    (∃ pre, (Busd.mainRun args env).1
        = pre ++ [Busd.Event.selectDone .sigint, Busd.Event.cleanup]
          ++ Busd.cleanupLog env.cleanupResult)
    ∧ ∀ o, Busd.Event.selectDone o ∈ (Busd.mainRun args env).1 → o = .sigint := by
  rw [Busd.mainRun_reach args env config bus hc hb hw hs, hsig]
  constructor
  · refine ⟨[Busd.Event.readConfigFile (Busd.configPath args),
        Busd.Event.forAddress (Busd.resolvedAddress args config)]
        ++ (match args.ready_fd with
            | some fd => [Busd.Event.readyWrite fd Busd.readyBytes, Busd.Event.readyClose fd]
            | none => [])
        ++ (if args.print_address = true then [Busd.Event.printAddress bus.address] else [])
        ++ (match Busd.run_command args.command bus.address with
            | .pending => []
            | .runs p a k v => [Busd.Event.spawnChild p a k v]), ?_⟩
    simp
  · cases hfd : args.ready_fd <;> cases hpa : args.print_address <;>
      cases hcmd : args.command <;> cases hcr : env.cleanupResult <;>
        (intro o ho
         simp [Busd.run_command, Busd.cleanupLog] at ho
         exact ho)

/-- Witness for `sigint_stops_and_cleans_up` at concrete input. -/
theorem sigint_stops_and_cleans_up_witness :
    (∃ pre, (Busd.mainRun ⟨none, none, none, false, none, false, false⟩
        ⟨.ok ⟨none⟩, .ok ⟨"unix:path=e"⟩, true, true, .sigint, .ok ()⟩).1
        = pre ++ [Busd.Event.selectDone .sigint, Busd.Event.cleanup]
          ++ Busd.cleanupLog (Except.ok ()))
    ∧ ∀ o, Busd.Event.selectDone o ∈ (Busd.mainRun ⟨none, none, none, false, none, false, false⟩
        ⟨.ok ⟨none⟩, .ok ⟨"unix:path=e"⟩, true, true, .sigint, .ok ()⟩).1 → o = .sigint :=
  sigint_stops_and_cleans_up ⟨none, none, none, false, none, false, false⟩
    ⟨.ok ⟨none⟩, .ok ⟨"unix:path=e"⟩, true, true, .sigint, .ok ()⟩
    ⟨none⟩ ⟨"unix:path=e"⟩ rfl rfl rfl rfl rfl

/-- C9: with no `--command`, the command future is `pending` and can never
resolve, so the command branch of the `select!` is impossible: only SIGINT
or `bus.run()` resolving can end the select. -/
theorem no_command_never_resolves (args : Busd.Args) (addr : String)
    (h : args.command = none) :
    Busd.run_command args.command addr = .pending
    ∧ (∀ r, Busd.selectPossible (Busd.run_command args.command addr) (.command r) = false)
    ∧ Busd.selectPossible (Busd.run_command args.command addr) .sigint = true
    ∧ (∀ res, Busd.selectPossible (Busd.run_command args.command addr) (.busRun res) = true) := by
  rw [h]
  exact ⟨rfl, fun r => rfl, rfl, fun res => rfl⟩

/-- Witness for `no_command_never_resolves` at concrete input. -/
theorem no_command_never_resolves_witness :
    Busd.run_command (Busd.Args.mk none none none false none false false).command "unix:path=f"
      = .pending
    ∧ (∀ r, Busd.selectPossible
        (Busd.run_command (Busd.Args.mk none none none false none false false).command
          "unix:path=f") (.command r) = false)
    ∧ Busd.selectPossible
        (Busd.run_command (Busd.Args.mk none none none false none false false).command
          "unix:path=f") .sigint = true
    ∧ (∀ res, Busd.selectPossible
        (Busd.run_command (Busd.Args.mk none none none false none false false).command
          "unix:path=f") (.busRun res) = true) :=
  no_command_never_resolves ⟨none, none, none, false, none, false, false⟩ "unix:path=f" rfl

/-- C10: if `bus.cleanup()` fails during shutdown, the failure is only
logged — `main` still returns `Ok(())`. -/
theorem cleanup_error_still_ok (args : Busd.Args) (env : Busd.Env)
    (config : Busd.Config) (bus : Busd.Bus) (e : String)
    (hc : env.configResult = .ok config) (hb : env.busResult = .ok bus)
    (hw : env.readyWriteOk = true) (hs : env.signalOk = true)
    (hce : env.cleanupResult = .error e) :
    (Busd.mainRun args env).2 = .ok ()
    ∧ Busd.Event.logError ("Failed to clean up: " ++ e) ∈ (Busd.mainRun args env).1 := by
  rw [Busd.mainRun_reach args env config bus hc hb hw hs]
  exact ⟨rfl, by simp [hce, Busd.cleanupLog]⟩

/-- Witness for `cleanup_error_still_ok` at concrete input. -/
theorem cleanup_error_still_ok_witness :
    (Busd.mainRun ⟨none, none, none, false, none, false, false⟩
        ⟨.ok ⟨none⟩, .ok ⟨"unix:path=g"⟩, true, true, .sigint, .error "nope"⟩).2 = .ok ()
    ∧ Busd.Event.logError ("Failed to clean up: " ++ "nope")
      ∈ (Busd.mainRun ⟨none, none, none, false, none, false, false⟩
        ⟨.ok ⟨none⟩, .ok ⟨"unix:path=g"⟩, true, true, .sigint, .error "nope"⟩).1 :=
  cleanup_error_still_ok ⟨none, none, none, false, none, false, false⟩
    ⟨.ok ⟨none⟩, .ok ⟨"unix:path=g"⟩, true, true, .sigint, .error "nope"⟩
    ⟨none⟩ ⟨"unix:path=g"⟩ "nope" rfl rfl rfl rfl rfl

/-- C7: decoding the encoding of a well-formed message yields the message
back, consuming exactly its encoding. -/
theorem message_roundtrip (m : Wire.Message) (rest : List Nat)
    (h : Wire.wfMessage m) :
    Wire.decodeMessage (Wire.encodeMessage m ++ rest)
      = .ok m (Wire.encodeMessage m).length :=
  Wire.decodeMessage_encodeMessage m rest h

/-- The witness message is well-formed. -/
theorem wireWitnessMsg_wf : Wire.wfMessage wireWitnessMsg := by
  simp [wireWitnessMsg, Wire.wfMessage, Wire.headerFields, Wire.fieldsList,
    Wire.optField, Wire.wfValue, Wire.wfList, Wire.allTyped, Wire.strBytesOK,
    Wire.typeOfV, Wire.typeOfL, Wire.typeOK, Wire.depthOf, Wire.depthList,
    Wire.structsNonempty, Wire.structsNonemptyList, Wire.sigOf, Wire.sigOfList,
    Wire.maxDepth, Wire.sizeUB, Wire.sizeUBL, Wire.maxMessageSize]

/-- Witness for `message_roundtrip` at a concrete message. -/
theorem message_roundtrip_witness :
    Wire.wfMessage wireWitnessMsg
    ∧ Wire.decodeMessage (Wire.encodeMessage wireWitnessMsg ++ [9, 9])
      = .ok wireWitnessMsg (Wire.encodeMessage wireWitnessMsg).length :=
  ⟨wireWitnessMsg_wf, message_roundtrip wireWitnessMsg [9, 9] wireWitnessMsg_wf⟩
